import Mathlib

/-!
Shallow embedding of `src/make_xlsx.py` (AeN activity-log workbook generator).

Python dictionaries holding xlsxwriter validation options and cell-format
options are embedded as records whose fields are the keys the program reads
or writes; a missing key is `none`, and reading a missing key (Python
`KeyError`) is an `Except.error`.  Worksheets are records accumulating the
observable effects (cell writes, data validations, tables, column/row
settings, merged ranges, freeze panes) in call order.  File output, printing
(`args.verbose`) and the output path (`args.dir`) are I/O and are omitted;
`workbook.close()` is a no-op for the model.
-/

namespace AeN

def DEFAULT_FONT : String := "Calibri"

def DEFAULT_SIZE : Nat := 10

/-- Embedding of an xlsxwriter data-validation options dict: the keys that
`make_xlsx.py` reads or writes (`validate`, `source`, `value`,
`input_message`, `input_title`).  `none` means the key is absent. -/
structure Validation where
  validate : Option String := none
  source : Option (List String) := none
  value : Option String := none
  input_message : Option String := none
  input_title : Option String := none
deriving DecidableEq

/-- The empty dict `\x7b\x7d`, the default of `Field.__init__`. -/
def Validation.empty : Validation := {}

/-- Python truthiness of the validation dict (`if field.validation:`):
false exactly when the dict is empty. -/
def Validation.isEmpty (v : Validation) : Bool :=
  v.validate.isNone && v.source.isNone && v.value.isNone &&
    v.input_message.isNone && v.input_title.isNone

/-- Embedding of an xlsxwriter cell-format dict.  `font_name` and
`font_size` are the keys `make_xlsx` tests and inserts; all other style
attributes are carried opaquely as key/value pairs in `props`. -/
structure CellFormat where
  font_name : Option String := none
  font_size : Option Nat := none
  props : List (String × String) := []
deriving DecidableEq

def CellFormat.empty : CellFormat := {}

/-- Python truthiness of the cell-format dict (`if field.cell_format:`). -/
def CellFormat.isEmpty (cf : CellFormat) : Bool :=
  cf.font_name.isNone && cf.font_size.isNone && cf.props.isEmpty

/-- Errors the embedded code can raise: a Python `KeyError` with the
looked-up key (dict subscript on a missing key). -/
inductive Err where
  | keyError (key : String)
deriving DecidableEq

/-- Read a dict key that may be absent: `d[key]` raising `KeyError`. -/
def getKey {α : Type} (o : Option α) (key : String) : Except Err α :=
  match o with
  | some a => Except.ok a
  | none => Except.error (Err.keyError key)

/-- `class Field` of `make_xlsx.py`: the specification of one column.
The Python defaults are `validation=\x7b\x7d`, `cell_format=\x7b\x7d`,
`width=20`, `long_list=False`; a `none` in the two Option fields models the
Python value `None` (never produced by the catalog builder), while
`some .empty` models the default empty dict. -/
structure Field where
  name : String
  disp_name : String
  validation : Option Validation := some Validation.empty
  cell_format : Option CellFormat := some CellFormat.empty
  width : Nat := 20
  long_list : Bool := false
deriving DecidableEq

def Field.set_validation (f : Field) (validation : Option Validation) : Field :=
  { f with validation := validation }

def Field.set_cell_format (f : Field) (cell_format : Option CellFormat) : Field :=
  { f with cell_format := cell_format }

def Field.set_width (f : Field) (width : Nat) : Field :=
  { f with width := width }

def Field.set_long_list (f : Field) (long_list : Bool) : Field :=
  { f with long_list := long_list }

/-- One raw field descriptor from the (external) `fields.fields` list:
a dict with required keys `name` and `disp_name` and optional keys
`valid`, `cell_format`, `width`, `long_list`. -/
structure RawField where
  name : String
  disp_name : String
  valid : Option Validation := none
  cell_format : Option CellFormat := none
  width : Option Nat := none
  long_list : Option Bool := none
deriving DecidableEq

/-- Body of the loop of `make_dict_of_fields`: build the `Field` object for
one raw descriptor (construct with defaults, then conditional setters). -/
def build_field (field : RawField) : Field :=
  let new : Field := { name := field.name, disp_name := field.disp_name }
  let new := match field.valid with
    | some v => new.set_validation (some v)
    | none => new
  let new := match field.cell_format with
    | some cf => new.set_cell_format (some cf)
    | none => new
  let new := match field.width with
    | some w => new.set_width w
    | none => new.set_width field.disp_name.length
  let new := match field.long_list with
    | some b => new.set_long_list b
    | none => new
  new

/-- Insert into the dict model: overwrite the first binding of the key in
place if present (Python dict assignment preserves insertion order),
otherwise append a new binding. -/
def dictInsert (d : List (String × Field)) (k : String) (f : Field) :
    List (String × Field) :=
  match d with
  | [] => [(k, f)]
  | p :: rest =>
      if p.1 == k then (k, f) :: rest else p :: dictInsert rest k f

/-- Python dict subscript as a partial lookup: first binding of the key. -/
def lookupField (d : List (String × Field)) (k : String) : Option Field :=
  (d.find? (fun q => q.1 == k)).map (fun q => q.2)

/-- `make_dict_of_fields`: fold the raw descriptor list into the dict of
`Field` objects keyed by `name`. -/
def make_dict_of_fields (fields : List RawField) : List (String × Field) :=
  fields.foldl (fun d field => dictInsert d field.name (build_field field)) []

/-- `str.capitalize` of Python: first character upper-cased, the rest
lower-cased (the catalog keys are ASCII, where `Char.toUpper`/`toLower`
agree with Python). -/
def pyCapitalize (s : String) : String :=
  match s.data with
  | [] => ""
  | c :: cs => String.mk (c.toUpper :: cs.map Char.toLower)

/-- Python `s.replace(' ', '_')`: with a one-character pattern and
replacement this is a character map. -/
def pyReplaceSpace (s : String) : String :=
  String.mk (s.data.map (fun c => if c = ' ' then '_' else c))

/-- Python slicing `s[:n]`: the first `n` characters. -/
def pyTake (s : String) (n : Nat) : String := String.mk (s.data.take n)

/-- Lexicographic comparison of character lists (Python string comparison is
lexicographic on code points). -/
def lexLe : List Char → List Char → Bool
  | [], _ => true
  | _ :: _, [] => false
  | a :: as, b :: bs => if a = b then lexLe as bs else decide (a < b)

/-- The comparison underlying `sorted(parameter_list, key=str.lower)`:
compare the lower-cased strings. -/
def ciLe (a b : String) : Bool :=
  lexLe (a.data.map Char.toLower) (b.data.map Char.toLower)

/-- The comparison as a decidable relation. -/
def ciRel (a b : String) : Prop := ciLe a b = true

instance : DecidableRel ciRel := fun a b => instDecidableEqBool (ciLe a b) true

/-- `sorted(parameter_list, key=str.lower)`: Python's sort is the stable
ascending sort under the key comparison, which insertion sort computes. -/
def pySorted (l : List String) : List String := List.insertionSort ciRel l

/-- One cell write (`worksheet.write(row, col, val, fmt)`). -/
structure WriteE where
  row : Nat
  col : Nat
  val : String
  fmt : Option CellFormat := none
deriving DecidableEq

/-- One `worksheet.data_validation(first_row, first_col, last_row, last_col,
options)` call. -/
structure DataValidation where
  first_row : Nat
  first_col : Nat
  last_row : Nat
  last_col : Nat
  options : Validation
deriving DecidableEq

/-- One `worksheet.add_table` call (named table over a cell range). -/
structure Table where
  first_row : Nat
  first_col : Nat
  last_row : Nat
  last_col : Nat
  name : String
  header_row : Bool
deriving DecidableEq

/-- One `worksheet.set_column` call. -/
structure ColSetting where
  first_col : Nat
  last_col : Nat
  width : Option Nat
  cell_format : Option CellFormat
  hidden : Bool
deriving DecidableEq

/-- One `worksheet.set_row` call. -/
structure RowSetting where
  row : Nat
  height : Option Nat
  cell_format : Option CellFormat
  hidden : Bool
deriving DecidableEq

/-- One `worksheet.merge_range` call. -/
structure MergeRange where
  first_row : Nat
  first_col : Nat
  last_row : Nat
  last_col : Nat
  val : String
  fmt : Option CellFormat
deriving DecidableEq

/-- A worksheet: its name, hidden flag, and the effects applied to it, each
kind in call order. -/
structure Sheet where
  name : String
  hidden : Bool := false
  writes : List WriteE := []
  validations : List DataValidation := []
  tables : List Table := []
  colSettings : List ColSetting := []
  rowSettings : List RowSetting := []
  merges : List MergeRange := []
  freeze : Option (Nat × Nat) := none
deriving DecidableEq

def Sheet.write (s : Sheet) (row col : Nat) (val : String)
    (fmt : Option CellFormat) : Sheet :=
  { s with writes := s.writes ++ [{ row := row, col := col, val := val, fmt := fmt }] }

def Sheet.data_validation (s : Sheet) (dv : DataValidation) : Sheet :=
  { s with validations := s.validations ++ [dv] }

def Sheet.add_table (s : Sheet) (t : Table) : Sheet :=
  { s with tables := s.tables ++ [t] }

def Sheet.set_column (s : Sheet) (first_col last_col : Nat)
    (width : Option Nat) (cell_format : Option CellFormat) (hidden : Bool) : Sheet :=
  { s with colSettings := s.colSettings ++
      [{ first_col := first_col, last_col := last_col, width := width,
         cell_format := cell_format, hidden := hidden }] }

def Sheet.set_row (s : Sheet) (row : Nat) (height : Option Nat)
    (cell_format : Option CellFormat) (hidden : Bool) : Sheet :=
  { s with rowSettings := s.rowSettings ++
      [{ row := row, height := height, cell_format := cell_format, hidden := hidden }] }

def Sheet.merge_range (s : Sheet) (first_row first_col last_row last_col : Nat)
    (val : String) (fmt : Option CellFormat) : Sheet :=
  { s with merges := s.merges ++
      [{ first_row := first_row, first_col := first_col, last_row := last_row,
         last_col := last_col, val := val, fmt := fmt }] }

def Sheet.freeze_panes (s : Sheet) (row col : Nat) : Sheet :=
  { s with freeze := some (row, col) }

/-- `worksheet.write_column(row, col, vals, fmt)`: write `vals` downwards
starting at `(row, col)`. -/
def Sheet.write_column (s : Sheet) (row col : Nat) (vals : List String)
    (fmt : Option CellFormat) : Sheet :=
  { s with writes := s.writes ++
      vals.enum.map (fun q => { row := row + q.1, col := col, val := q.2, fmt := fmt }) }

/-- The last value written to a cell, over a raw write list. -/
def lastValAt (ws : List WriteE) (row col : Nat) : Option String :=
  ((ws.filter (fun w => w.row == row && w.col == col)).getLast?).map (fun w => w.val)

/-- The value a cell of the finished sheet holds: the last write wins. -/
def Sheet.getCell (s : Sheet) (row col : Nat) : Option String :=
  lastValAt s.writes row col

/-- All writes that landed in one column, in order. -/
def Sheet.writesAtCol (s : Sheet) (col : Nat) : List WriteE :=
  s.writes.filter (fun w => w.col == col)

/-! The cell formats `make_xlsx.py` creates with `workbook.add_format`,
rendered as `CellFormat` records; style attributes other than font name and
size are carried as string pairs in dict-literal order. -/

def header_format : CellFormat :=
  { font_name := some DEFAULT_FONT, font_size := some (DEFAULT_SIZE + 2),
    props := [("font_color", "#FF0000"), ("bold", "False"),
              ("text_wrap", "False"), ("valign", "vcenter")] }

def field_format : CellFormat :=
  { font_name := some DEFAULT_FONT, font_size := some (DEFAULT_SIZE + 1),
    props := [("bottom", "True"), ("right", "True"), ("bold", "False"),
              ("text_wrap", "True"), ("valign", "vcenter"), ("bg_color", "#B9F6F5")] }

def date_format : CellFormat :=
  { font_name := some DEFAULT_FONT, font_size := some DEFAULT_SIZE,
    props := [("bold", "False"), ("text_wrap", "False"), ("valign", "vcenter"),
              ("num_format", "dd/mm/yy")] }

def time_format : CellFormat :=
  { font_name := some DEFAULT_FONT, font_size := some DEFAULT_SIZE,
    props := [("bold", "False"), ("text_wrap", "False"), ("valign", "vcenter"),
              ("num_format", "hh:mm:ss")] }

def parameter_format : CellFormat :=
  { font_name := some DEFAULT_FONT, font_size := some (DEFAULT_SIZE + 2),
    props := [("right", "True"), ("bottom", "True"), ("bold", "False"),
              ("text_wrap", "True"), ("valign", "left"), ("bg_color", "#B9F6F5")] }

def input_format : CellFormat :=
  { font_name := some DEFAULT_FONT, font_size := some DEFAULT_SIZE,
    props := [("bold", "False"), ("text_wrap", "True"), ("valign", "left")] }

def center_format : CellFormat :=
  { font_name := some DEFAULT_FONT, font_size := some (DEFAULT_SIZE + 2),
    props := [("right", "True"), ("bottom", "True"), ("bold", "False"),
              ("text_wrap", "True"), ("valign", "center"), ("bg_color", "#23EEFF")] }

def output_format : CellFormat :=
  { font_name := some DEFAULT_FONT, font_size := some (DEFAULT_SIZE + 2),
    props := [("right", "True"), ("bottom", "True"), ("bold", "False"),
              ("text_wrap", "True"), ("valign", "left"), ("bg_color", "#FF94E8")] }

/-- `class Variable_sheet`: the hidden `Variables` worksheet plus the running
column cursor (`self.current_column`). -/
structure Variable_sheet where
  sheet : Sheet
  current_column : Nat
deriving DecidableEq

/-- `Variable_sheet.__init__`: add the worksheet named `Variables` to the
workbook and hide it; the cursor starts at 0. -/
def Variable_sheet.init : Variable_sheet :=
  { sheet := { name := "Variables", hidden := true }, current_column := 0 }

/-- The named-table name built in `Variable_sheet.add_row`:
`Table_` + the variable with spaces replaced by underscores, `.capitalize()`d. -/
def table_name (varName : String) : String :=
  "Table_" ++ pyCapitalize (pyReplaceSpace varName)

/-- `Variable_sheet.add_row`: write the variable name at row 0 of the cursor
column, add a named table spanning rows 1 .. 1+len(list) of that column,
write the case-insensitively sorted values below the header row, advance the
cursor, and return the `=INDIRECT(...)` reference. -/
def Variable_sheet.add_row (vs : Variable_sheet) (varName : String)
    (parameter_list : List String) : Variable_sheet × String :=
  let s := vs.sheet.write 0 vs.current_column varName none
  let name := table_name varName
  let s := s.add_table
    { first_row := 1, first_col := vs.current_column,
      last_row := 1 + parameter_list.length, last_col := vs.current_column,
      name := name, header_row := false }
  let s := s.write_column 1 vs.current_column (pySorted parameter_list) none
  let ref := "=INDIRECT(\"" ++ name ++ "\")"
  ({ sheet := s, current_column := vs.current_column + 1 }, ref)

/-- `write_conversion`: the static `Conversion` sheet. -/
def write_conversion : Sheet :=
  let sheet : Sheet := { name := "Conversion" }
  let sheet := sheet.set_column 0 2 (some 30) none false
  let sheet := sheet.write 1 0 "Coordinate conversion " (some parameter_format)
  let sheet := sheet.merge_range 2 0 2 1 "Degree Minutes Seconds " (some center_format)
  let sheet := sheet.write 3 0 "Degrees " (some parameter_format)
  let sheet := sheet.write 4 0 "Minutes " (some parameter_format)
  let sheet := sheet.write 5 0 "Seconds " (some parameter_format)
  let sheet := sheet.write 6 0 "Decimal degrees " (some output_format)
  let sheet := sheet.write 6 1 "=B4+B5/60+B6/3600 " (some output_format)
  let sheet := sheet.merge_range 7 0 7 1 "Degree decimal minutes" (some center_format)
  let sheet := sheet.write 8 0 "Degrees " (some parameter_format)
  let sheet := sheet.write 9 0 "Decimal minutes " (some parameter_format)
  let sheet := sheet.write 10 0 "Decimal degrees " (some output_format)
  let sheet := sheet.write 10 1 "=B9+B10/60 " (some output_format)
  sheet

/-- The fixed ordered key list of `write_metadata`. -/
def metadata_fields : List String :=
  ["title", "abstract", "pi_name", "pi_email", "pi_institution",
   "pi_address", "recordedBy", "projectID", "cruiseNumber", "vesselName"]

/-- The metadata validation-options transformation: copy the dict and
truncate `input_message` past 255 characters to its first 252 plus `...`. -/
def metadata_valid_options (v : Validation) : Except Err Validation :=
  match getKey v.input_message "input_message" with
  | Except.error e => Except.error e
  | Except.ok msg =>
      Except.ok (if msg.length > 255 then
          { v with input_message := some (pyTake msg 252 ++ "...") }
        else v)

/-- Tail of one `write_metadata` loop iteration, reached only when the value
cell was written without the `except` branch firing: apply the field's
validation (prompt truncated past 255 characters) and, nested inside that,
its row format; then set the row height. -/
def metadata_tail (field : Field) (s : Sheet) (ii : Nat) : Except Err Sheet :=
  let sres : Except Err Sheet :=
    match field.validation with
    | some v =>
      if !v.isEmpty then
        match metadata_valid_options v with
        | Except.error e => Except.error e
        | Except.ok valid_copy =>
          let s := s.data_validation
            { first_row := ii, first_col := 2, last_row := ii, last_col := 2,
              options := valid_copy }
          let s := (match field.cell_format with
            | some cf =>
                if !cf.isEmpty then s.set_row ii (some ii) (some cf) false else s
            | none => s)
          Except.ok s
      else Except.ok s
    | none => Except.ok s
  match sres with
  | Except.error e => Except.error e
  | Except.ok s =>
    let height : Nat := if ii == 0 then 30 else if ii == 1 then 150 else 15
    Except.ok (s.set_row ii (some height) none false)

/-- One iteration of the `write_metadata` loop for key `p.2` at row `p.1`:
write label, hidden key and value cell; when the metadata frame is present
but the key lookup (or value write) fails, write an empty string and
`continue`, skipping the tail. -/
def metadata_row (field_dict : List (String × Field))
    (metadata_df : Option (String → Option String)) (s : Sheet)
    (p : Nat × String) : Except Err Sheet :=
  let ii := p.1
  let mfield := p.2
  match getKey (lookupField field_dict mfield) mfield with
  | Except.error e => Except.error e
  | Except.ok field =>
    let s := s.write ii 0 field.disp_name (some parameter_format)
    let s := s.write ii 1 field.name (some parameter_format)
    let s := s.set_column 1 1 none none true
    match metadata_df with
    | some df =>
      match df mfield with
      | some v => metadata_tail field (s.write ii 2 v (some input_format)) ii
      | none => Except.ok (s.write ii 2 "" (some input_format))
    | none => metadata_tail field (s.write ii 2 "" (some input_format)) ii

/-- Fallible left fold: a Python `for` loop whose body may raise. -/
def foldE {σ α : Type} (f : σ → α → Except Err σ) : σ → List α → Except Err σ
  | s, [] => Except.ok s
  | s, a :: l =>
    match f s a with
    | Except.error e => Except.error e
    | Except.ok s2 => foldE f s2 l

/-- `write_metadata`: build the `Metadata` sheet. -/
def write_metadata (field_dict : List (String × Field))
    (metadata_df : Option (String → Option String)) : Except Err Sheet :=
  let sheet : Sheet := { name := "Metadata" }
  let sheet := sheet.set_column 0 0 (some 30) none false
  let sheet := sheet.set_column 2 2 (some 50) none false
  foldE (metadata_row field_dict metadata_df) sheet metadata_fields.enum

/-- `title_row = 1`, the starting row of the data-sheet loop. -/
def title_row : Nat := 1

/-- `start_row = title_row + 2 = 3`, first data row. -/
def start_row : Nat := title_row + 2

/-- `parameter_row = title_row + 1 = 2`, the hidden key row. -/
def parameter_row : Nat := title_row + 1

/-- `end_row = 20000`, last row covered by column validations. -/
def end_row : Nat := 20000

/-- `file_def`: the output-file definition dict (`name`, `disp_name`,
`fields`). -/
structure FileDef where
  name : String
  disp_name : String
  fields : List String
deriving DecidableEq

/-- Mutable state threaded through the data-sheet column loop of
`make_xlsx`: the `Data` sheet, the `Variable_sheet` object, and the field
dict (whose `Field` objects the loop mutates in place in Python). -/
structure LoopState where
  data_sheet : Sheet
  variable_sheet_obj : Variable_sheet
  field_dict : List (String × Field)
deriving DecidableEq

/-- Overwrite the first binding of a key (Python: in-place mutation of the
object the dict maps the key to). -/
def updateField (d : List (String × Field)) (k : String) (f : Field) :
    List (String × Field) :=
  match d with
  | [] => []
  | p :: rest =>
      if p.1 == k then (p.1, f) :: rest else p :: updateField rest k f

/-- The short-list validation-options transformation of `make_xlsx`
(non-long_list branch): copy the dict, truncate `input_message` past 255
characters to 252 + `...`, re-read `input_message` (the discarded
`.replace` call), truncate `input_title` past 32 characters. -/
def short_list_options (v : Validation) : Except Err Validation :=
  match getKey v.input_message "input_message" with
  | Except.error e => Except.error e
  | Except.ok msg =>
    let valid_copy :=
      if msg.length > 255 then
        { v with input_message := some (pyTake msg 252 ++ "...") }
      else v
    match getKey valid_copy.input_message "input_message" with
    | Except.error e => Except.error e
    | Except.ok _ =>
      match getKey valid_copy.input_title "input_title" with
      | Except.error e => Except.error e
      | Except.ok title =>
        Except.ok (if title.length > 32 then
            { valid_copy with input_title := some (pyTake title 32) }
          else valid_copy)

/-- One iteration of the data-sheet column loop of `make_xlsx` for field
name `p.2` at column `p.1`: look the field up, write its display name on the
title row and its key on the parameter row, install its validation (the
long-list branch relocates the source to the `Variables` sheet), and set the
column width and format — inserting the default font name and size into the
field's own cell-format dict when absent (an in-place mutation of the
`Field` object). -/
def process_column (st : LoopState) (p : Nat × String) :
    Except Err LoopState :=
  let ii := p.1
  match getKey (lookupField st.field_dict p.2) p.2 with
  | Except.error e => Except.error e
  | Except.ok field =>
    let ds := st.data_sheet.write title_row ii field.disp_name (some field_format)
    let ds := ds.write parameter_row ii field.name none
    let vres : Except Err (Sheet × Variable_sheet) :=
      match field.validation with
      | some v =>
        if field.long_list then
          match getKey v.source "source" with
          | Except.error e => Except.error e
          | Except.ok source =>
            let ar := st.variable_sheet_obj.add_row field.name source
            let valid_copy := { v with source := none, value := some ar.2 }
            match getKey valid_copy.input_message "input_message" with
            | Except.error e => Except.error e
            | Except.ok _ =>
              Except.ok (ds.data_validation
                { first_row := start_row, first_col := ii,
                  last_row := end_row, last_col := ii, options := valid_copy }, ar.1)
        else
          match short_list_options v with
          | Except.error e => Except.error e
          | Except.ok valid_copy =>
            Except.ok (ds.data_validation
              { first_row := start_row, first_col := ii,
                last_row := end_row, last_col := ii, options := valid_copy },
              st.variable_sheet_obj)
      | none => Except.ok (ds, st.variable_sheet_obj)
    match vres with
    | Except.error e => Except.error e
    | Except.ok r =>
      let ds := r.1
      let vs := r.2
      match field.cell_format with
      | some cf =>
        let cf := if cf.font_name.isNone then { cf with font_name := some DEFAULT_FONT } else cf
        let cf := if cf.font_size.isNone then { cf with font_size := some DEFAULT_SIZE } else cf
        let field2 := { field with cell_format := some cf }
        let ds := ds.set_column ii ii (some field2.width) (some cf) false
        Except.ok { data_sheet := ds, variable_sheet_obj := vs,
                    field_dict := updateField st.field_dict p.2 field2 }
      | none =>
        Except.ok { data_sheet := ds.set_column ii ii (some field.width) none false,
                    variable_sheet_obj := vs, field_dict := st.field_dict }

/-- The data-sheet column loop of `make_xlsx`, over the enumerated field
names of the file definition. -/
def process_columns (st : LoopState) (l : List (Nat × String)) :
    Except Err LoopState :=
  foldE process_column st l

/-- One column of the optional supplied data table.  `ok` abstracts whether
xlsxwriter accepts the column's values: when the underlying
`write_column` call raises (e.g. a type mismatch), the bare `except` of
`make_xlsx` swallows the error and the column gets no data. -/
structure DataColumn where
  name : String
  values : List String
  ok : Bool
deriving DecidableEq

/-- One iteration of the data-population loop of `make_xlsx`: the column is
written downwards from `start_row` at its own position, date/time-named
columns with the date/time display format; a failing column (`ok = false`,
the bare `except`) is skipped. -/
def write_data_step (s : Sheet) (q : Nat × DataColumn) : Sheet :=
  if q.2.ok then
    if ["eventDate", "start_date", "end_date"].contains q.2.name then
      s.write_column start_row q.1 q.2.values (some date_format)
    else if ["eventTime", "start_time", "end_time"].contains q.2.name then
      s.write_column start_row q.1 q.2.values (some time_format)
    else
      s.write_column start_row q.1 q.2.values none
  else s

/-- The data-population loop of `make_xlsx`, over the enumerated columns of
the supplied data frame. -/
def write_data_columns (s : Sheet) (data : List DataColumn) : Sheet :=
  data.enum.foldl write_data_step s

/-- The outcome of one `make_xlsx` run: the workbook's sheets in creation
order, plus the field dict as it stands after the run (its `Field` objects
may have been mutated). -/
structure RunResult where
  sheets : List Sheet
  field_dict : List (String × Field)
deriving DecidableEq

/-- The loop state as `make_xlsx` sets it up: a fresh `Data` sheet, a fresh
`Variable_sheet` (which adds the hidden `Variables` worksheet), and the
caller's field dict. -/
def initState (field_dict : List (String × Field)) : LoopState :=
  { data_sheet := { name := "Data" }, variable_sheet_obj := Variable_sheet.init,
    field_dict := field_dict }

/-- The tail of `make_xlsx` after the column loop: optional data population,
then the display-title header, the paste-hint banner merged across columns
1-7, the first-row height, the freeze panes below the parameter row, and
hiding the parameter row. -/
def finishData (ds : Sheet) (file_def : FileDef)
    (data : Option (List DataColumn)) : Sheet :=
  let ds := (match data with
    | some d => write_data_columns ds d
    | none => ds)
  let ds := ds.write 0 0 file_def.disp_name (some header_format)
  let ds := ds.merge_range 0 1 0 7
    "When pasting only use \x27paste special\x27 / \x27paste only\x27, selecting numbers and/or text "
    (some header_format)
  let ds := ds.set_row 0 (some 24) none false
  let ds := ds.freeze_panes start_row 0
  ds.set_row parameter_row none none true

/-- `make_xlsx`: render one workbook.  Sheet creation order is `Metadata`
(if enabled), `Data`, `Variables` (always created, hidden), `Conversion`
(if enabled). -/
def make_xlsx (file_def : FileDef) (field_dict : List (String × Field))
    (metadata conversions : Bool) (data : Option (List DataColumn))
    (metadata_df : Option (String → Option String)) : Except Err RunResult :=
  let metaRes : Except Err (List Sheet) :=
    if metadata then
      match write_metadata field_dict metadata_df with
      | Except.error e => Except.error e
      | Except.ok s => Except.ok [s]
    else Except.ok []
  match metaRes with
  | Except.error e => Except.error e
  | Except.ok metaSheets =>
    match process_columns (initState field_dict) file_def.fields.enum with
    | Except.error e => Except.error e
    | Except.ok st =>
      let ds := finishData st.data_sheet file_def data
      let convSheets := if conversions then [write_conversion] else []
      Except.ok
        { sheets := metaSheets ++ [ds, st.variable_sheet_obj.sheet] ++ convSheets,
          field_dict := st.field_dict }

/-! Derived notions used to state and prove properties of the embedding. -/

/-- The attributes of a `Field` that `make_xlsx` never mutates (everything
except the cell-format dict). -/
structure FieldCore where
  name : String
  disp_name : String
  validation : Option Validation
  width : Nat
  long_list : Bool
deriving DecidableEq

def Field.core (f : Field) : FieldCore :=
  { name := f.name, disp_name := f.disp_name, validation := f.validation,
    width := f.width, long_list := f.long_list }

/-- The field dict restricted to the immutable attributes. -/
def dictCore (d : List (String × Field)) : List (String × FieldCore) :=
  d.map (fun p => (p.1, p.2.core))

/-- Lookup restricted to the immutable attributes. -/
def coreLookup (d : List (String × Field)) (k : String) : Option FieldCore :=
  (lookupField d k).map Field.core

/-- The two header writes (display name on the title row, internal key on
the parameter row) the column loop performs for each enumerated field. -/
def headerWrites (d : List (String × Field)) (l : List (Nat × String)) :
    List WriteE :=
  l.flatMap (fun p =>
    match coreLookup d p.2 with
    | some c =>
        [{ row := title_row, col := p.1, val := c.disp_name, fmt := some field_format },
         { row := parameter_row, col := p.1, val := c.name, fmt := none }]
    | none => [])

/-- The data-validation entries the column loop installs for one enumerated
field, as a function of its immutable attributes (on a successful run). -/
def column_validation (i : Nat) (c : FieldCore) : List DataValidation :=
  match c.validation with
  | none => []
  | some v =>
    if c.long_list then
      let ref := "=INDIRECT(\"" ++ table_name c.name ++ "\")"
      let opts := { v with source := none, value := some ref }
      [{ first_row := start_row, first_col := i, last_row := end_row,
         last_col := i, options := opts }]
    else
      match short_list_options v with
      | Except.ok vc =>
          [{ first_row := start_row, first_col := i, last_row := end_row,
             last_col := i, options := vc }]
      | Except.error _ => []

/-- The validation entries over a whole enumerated field list. -/
def columnValidations (d : List (String × Field)) (l : List (Nat × String)) :
    List DataValidation :=
  l.flatMap (fun p =>
    match coreLookup d p.2 with
    | some c => column_validation p.1 c
    | none => [])

/-- How the column loop may evolve the `Variables` sheet object: name and
hidden flag are untouched, the cursor only grows, writes are appended and
only at columns at or past the old cursor, and tables are appended. -/
def vsStep (a b : Variable_sheet) : Prop :=
  b.sheet.name = a.sheet.name ∧ b.sheet.hidden = a.sheet.hidden ∧
  a.current_column ≤ b.current_column ∧
  (∃ wnew, b.sheet.writes = a.sheet.writes ++ wnew ∧
      ∀ w ∈ wnew, a.current_column ≤ w.col) ∧
  (∃ tnew, b.sheet.tables = a.sheet.tables ++ tnew)

/-- Invariant of the `Variables` sheet object: everything written so far
sits strictly left of the cursor. -/
def vsInv (vs : Variable_sheet) : Prop :=
  (∀ w ∈ vs.sheet.writes, w.col < vs.current_column) ∧
  (∀ t ∈ vs.sheet.tables, t.first_col < vs.current_column)

/-- The `Variables`-sheet content recorded for one registered long-list
field: its named table over rows 1..1+n of some column left of the cursor,
the variable name at the top of that column, and the sorted values below. -/
def longRegistered (vs : Variable_sheet) (varName : String)
    (src : List String) : Prop :=
  ∃ col, col < vs.current_column ∧
    ({ first_row := 1, first_col := col, last_row := 1 + src.length,
       last_col := col, name := table_name varName, header_row := false } : Table)
        ∈ vs.sheet.tables ∧
    vs.sheet.writesAtCol col =
      { row := 0, col := col, val := varName, fmt := none } ::
        (pySorted src).enum.map
          (fun q => { row := 1 + q.1, col := col, val := q.2, fmt := none })

/-! Basic facts about the case-insensitive comparison and the sort. -/

theorem lexLe_total (as bs : List Char) :
    lexLe as bs = true ∨ lexLe bs as = true := by
  induction as generalizing bs with
  | nil => exact Or.inl rfl
  | cons a as ih =>
    cases bs with
    | nil => exact Or.inr rfl
    | cons b bs =>
      by_cases hab : a = b
      · subst hab
        simpa [lexLe] using ih bs
      · rcases lt_trichotomy a b with hlt | heq | hgt
        · exact Or.inl (by simp [lexLe, hab, hlt])
        · exact absurd heq hab
        · exact Or.inr (by simp [lexLe, Ne.symm hab, hgt])

theorem lexLe_trans {as bs cs : List Char} (h1 : lexLe as bs = true)
    (h2 : lexLe bs cs = true) : lexLe as cs = true := by
  induction as generalizing bs cs with
  | nil => rfl
  | cons a as ih =>
    cases bs with
    | nil => simp [lexLe] at h1
    | cons b bs =>
      cases cs with
      | nil => simp [lexLe] at h2
      | cons c cs =>
        by_cases hab : a = b <;> by_cases hbc : b = c
        · subst hab; subst hbc
          simp only [lexLe, if_pos rfl] at h1 h2 ⊢
          exact ih h1 h2
        · subst hab
          simp only [lexLe, if_pos rfl] at h1
          simp only [lexLe, if_neg hbc] at h2 ⊢
          exact h2
        · subst hbc
          simp only [lexLe, if_neg hab] at h1 ⊢
          exact h1
        · simp only [lexLe, if_neg hab] at h1
          simp only [lexLe, if_neg hbc] at h2
          have hac : a < c := lt_trans (of_decide_eq_true h1) (of_decide_eq_true h2)
          have hne : a ≠ c := ne_of_lt hac
          simp [lexLe, hne, hac]

instance : IsTotal String ciRel :=
  ⟨fun a b => lexLe_total (a.data.map Char.toLower) (b.data.map Char.toLower)⟩

instance : IsTrans String ciRel :=
  ⟨fun _ _ _ h1 h2 => lexLe_trans h1 h2⟩

/-- The sorted values are a permutation of the original source list. -/
theorem pySorted_perm (l : List String) : (pySorted l).Perm l :=
  List.perm_insertionSort ciRel l

/-- The sorted values are ascending under the case-insensitive comparison. -/
theorem pySorted_sorted (l : List String) : List.Sorted ciRel (pySorted l) :=
  List.sorted_insertionSort ciRel l

/-! Facts about cell lookup over write lists. -/

theorem lastValAt_append_nomatch (ws tl : List WriteE) (r c : Nat)
    (h : ∀ w ∈ tl, ¬(w.row = r ∧ w.col = c)) :
    lastValAt (ws ++ tl) r c = lastValAt ws r c := by
  unfold lastValAt
  have : tl.filter (fun w => w.row == r && w.col == c) = [] := by
    rw [List.filter_eq_nil_iff]
    intro w hw
    have := h w hw
    simp only [Bool.and_eq_true, beq_iff_eq]
    tauto
  rw [List.filter_append, this, List.append_nil]

theorem writesAtCol_of_writes_append {s s' : Sheet} {tl : List WriteE} {c : Nat}
    (hw : s'.writes = s.writes ++ tl) (h : ∀ w ∈ tl, w.col ≠ c) :
    s'.writesAtCol c = s.writesAtCol c := by
  unfold Sheet.writesAtCol
  rw [hw, List.filter_append]
  have : tl.filter (fun w => w.col == c) = [] := by
    rw [List.filter_eq_nil_iff]
    intro w hwm
    simpa using h w hwm
  rw [this, List.append_nil]

/-! Facts about the field dict and its immutable core. -/

theorem coreLookup_eq_find (d : List (String × Field)) (k : String) :
    coreLookup d k =
      ((dictCore d).find? (fun q => q.1 == k)).map (fun q => q.2) := by
  induction d with
  | nil => rfl
  | cons p rest ih =>
    by_cases hk : p.1 = k
    · simp [coreLookup, lookupField, dictCore, List.find?, hk]
    · have hbeq : (p.1 == k) = false := beq_eq_false_iff_ne.mpr hk
      simpa [coreLookup, lookupField, dictCore, List.find?, hbeq] using ih

theorem coreLookup_congr {d d' : List (String × Field)}
    (h : dictCore d = dictCore d') (k : String) :
    coreLookup d k = coreLookup d' k := by
  rw [coreLookup_eq_find, coreLookup_eq_find, h]

theorem coreLookup_of_lookup {d : List (String × Field)} {k : String} {f : Field}
    (h : lookupField d k = some f) : coreLookup d k = some f.core := by
  simp [coreLookup, h]

theorem dictCore_updateField (d : List (String × Field)) (k : String) (f : Field)
    (h : ∀ g, lookupField d k = some g → g.core = f.core) :
    dictCore (updateField d k f) = dictCore d := by
  induction d with
  | nil => rfl
  | cons p rest ih =>
    by_cases hk : p.1 = k
    · have hbeq : (p.1 == k) = true := beq_iff_eq.mpr hk
      have hg : p.2.core = f.core := by
        apply h
        simp [lookupField, List.find?, hbeq]
      simp [updateField, dictCore, hbeq, hg, hk]
    · have hbeq : (p.1 == k) = false := beq_eq_false_iff_ne.mpr hk
      have ih' := ih (fun g hg => h g (by simpa [lookupField, List.find?, hbeq] using hg))
      simp [updateField, dictCore, hbeq]
      simpa [dictCore] using ih'

/-! Facts about `Variable_sheet` evolution. -/

theorem vsStep_refl (a : Variable_sheet) : vsStep a a :=
  ⟨rfl, rfl, le_refl _, ⟨[], by simp, by simp⟩, ⟨[], by simp⟩⟩

theorem vsStep_trans {a b c : Variable_sheet} (h1 : vsStep a b)
    (h2 : vsStep b c) : vsStep a c := by
  obtain ⟨hn1, hh1, hc1, ⟨w1, hw1, hwc1⟩, ⟨t1, ht1⟩⟩ := h1
  obtain ⟨hn2, hh2, hc2, ⟨w2, hw2, hwc2⟩, ⟨t2, ht2⟩⟩ := h2
  refine ⟨hn2.trans hn1, hh2.trans hh1, hc1.trans hc2,
    ⟨w1 ++ w2, by rw [hw2, hw1, List.append_assoc], ?_⟩,
    ⟨t1 ++ t2, by rw [ht2, ht1, List.append_assoc]⟩⟩
  intro w hw
  rcases List.mem_append.mp hw with hmem | hmem
  · exact hwc1 w hmem
  · exact hc1.trans (hwc2 w hmem)

theorem longRegistered_mono {a b : Variable_sheet} {n : String}
    {src : List String} (h : vsStep a b) (hreg : longRegistered a n src) :
    longRegistered b n src := by
  obtain ⟨hn, hh, hc, ⟨wnew, hw, hwc⟩, ⟨tnew, ht⟩⟩ := h
  obtain ⟨col, hcol, htab, hwr⟩ := hreg
  refine ⟨col, lt_of_lt_of_le hcol hc, ?_, ?_⟩
  · rw [ht]
    exact List.mem_append_left _ htab
  · have : b.sheet.writesAtCol col = a.sheet.writesAtCol col := by
      apply writesAtCol_of_writes_append hw
      intro w hwm
      have := hwc w hwm
      omega
    rw [this, hwr]

/-- `add_row` always makes one `vsStep` and advances the cursor by one. -/
theorem add_row_step (vs : Variable_sheet) (n : String) (src : List String) :
    vsStep vs (vs.add_row n src).1 ∧
      (vs.add_row n src).1.current_column = vs.current_column + 1 := by
  have hw : (vs.add_row n src).1.sheet.writes =
      vs.sheet.writes ++
        ({ row := 0, col := vs.current_column, val := n, fmt := none } ::
          (pySorted src).enum.map
            (fun q => { row := 1 + q.1, col := vs.current_column, val := q.2,
                        fmt := none })) := by
    simp [Variable_sheet.add_row, Sheet.write, Sheet.add_table,
      Sheet.write_column, List.append_assoc]
  have ht : (vs.add_row n src).1.sheet.tables =
      vs.sheet.tables ++
        [{ first_row := 1, first_col := vs.current_column,
           last_row := 1 + src.length, last_col := vs.current_column,
           name := table_name n, header_row := false }] := by
    simp [Variable_sheet.add_row, Sheet.write, Sheet.add_table, Sheet.write_column]
  refine ⟨⟨rfl, rfl, Nat.le_succ _, ⟨_, hw, ?_⟩, ⟨_, ht⟩⟩, rfl⟩
  intro w hwm
  rcases List.mem_cons.mp hwm with rfl | hwm
  · exact le_refl _
  · obtain ⟨q, _, rfl⟩ := List.mem_map.mp hwm
    exact le_refl _

/-- `add_row` on an invariant-respecting sheet: one `vsStep`, invariant
preserved, the list registered at the old cursor, and the returned
reference formula. -/
theorem add_row_spec (vs : Variable_sheet) (n : String) (src : List String)
    (hinv : vsInv vs) :
    vsStep vs (vs.add_row n src).1 ∧ vsInv (vs.add_row n src).1 ∧
      longRegistered (vs.add_row n src).1 n src ∧
      (vs.add_row n src).2 = "=INDIRECT(\"" ++ table_name n ++ "\")" ∧
      (vs.add_row n src).1.current_column = vs.current_column + 1 := by
  obtain ⟨hinvw, hinvt⟩ := hinv
  have hw : (vs.add_row n src).1.sheet.writes =
      vs.sheet.writes ++
        ({ row := 0, col := vs.current_column, val := n, fmt := none } ::
          (pySorted src).enum.map
            (fun q => { row := 1 + q.1, col := vs.current_column, val := q.2,
                        fmt := none })) := by
    simp [Variable_sheet.add_row, Sheet.write, Sheet.add_table,
      Sheet.write_column, List.append_assoc]
  have ht : (vs.add_row n src).1.sheet.tables =
      vs.sheet.tables ++
        [{ first_row := 1, first_col := vs.current_column,
           last_row := 1 + src.length, last_col := vs.current_column,
           name := table_name n, header_row := false }] := by
    simp [Variable_sheet.add_row, Sheet.write, Sheet.add_table, Sheet.write_column]
  have hnewcols : ∀ w ∈ ({ row := 0, col := vs.current_column, val := n, fmt := none } ::
      (pySorted src).enum.map
        (fun q => ({ row := 1 + q.1, col := vs.current_column, val := q.2,
                     fmt := none } : WriteE))), w.col = vs.current_column := by
    intro w hwm
    rcases List.mem_cons.mp hwm with rfl | hwm
    · rfl
    · obtain ⟨q, _, rfl⟩ := List.mem_map.mp hwm
      rfl
  have hcur : (vs.add_row n src).1.current_column = vs.current_column + 1 := rfl
  refine ⟨⟨rfl, rfl, by rw [hcur]; exact Nat.le_succ _,
      ⟨_, hw, fun w hwm => le_of_eq (hnewcols w hwm).symm⟩, ⟨_, ht⟩⟩,
    ⟨?_, ?_⟩, ⟨vs.current_column, by rw [hcur]; exact Nat.lt_succ_self _, ?_, ?_⟩,
    rfl, hcur⟩
  · intro w hwm
    rw [hw] at hwm
    rw [hcur]
    rcases List.mem_append.mp hwm with hwm | hwm
    · exact lt_trans (hinvw w hwm) (Nat.lt_succ_self _)
    · rw [hnewcols w hwm]
      exact Nat.lt_succ_self _
  · intro t htm
    rw [ht] at htm
    rw [hcur]
    rcases List.mem_append.mp htm with htm | htm
    · exact lt_trans (hinvt t htm) (Nat.lt_succ_self _)
    · rcases List.mem_singleton.mp htm with rfl
      exact Nat.lt_succ_self _
  · rw [ht]
    exact List.mem_append_right _ (List.mem_singleton.mpr rfl)
  · unfold Sheet.writesAtCol
    rw [hw, List.filter_append]
    have h0 : vs.sheet.writes.filter (fun w => w.col == vs.current_column) = [] := by
      rw [List.filter_eq_nil_iff]
      intro w hwm
      have := hinvw w hwm
      simp only [beq_iff_eq]
      omega
    have h1 : List.filter (fun w => w.col == vs.current_column)
        ({ row := 0, col := vs.current_column, val := n, fmt := none } ::
          (pySorted src).enum.map
            (fun q => ({ row := 1 + q.1, col := vs.current_column, val := q.2,
                         fmt := none } : WriteE))) =
        { row := 0, col := vs.current_column, val := n, fmt := none } ::
          (pySorted src).enum.map
            (fun q => ({ row := 1 + q.1, col := vs.current_column, val := q.2,
                         fmt := none } : WriteE)) := by
      rw [List.filter_eq_self]
      intro w hwm
      rw [hnewcols w hwm]
      exact beq_self_eq_true _
    rw [h0, h1, List.nil_append]

/-- Full characterisation of one successful column-loop iteration. -/
theorem process_column_ok {st st' : LoopState} {p : Nat × String}
    (h : process_column st p = Except.ok st') :
    ∃ field, lookupField st.field_dict p.2 = some field ∧
      dictCore st'.field_dict = dictCore st.field_dict ∧
      st'.data_sheet.name = st.data_sheet.name ∧
      st'.data_sheet.writes = st.data_sheet.writes ++
        [{ row := title_row, col := p.1, val := field.disp_name,
           fmt := some field_format },
         { row := parameter_row, col := p.1, val := field.name, fmt := none }] ∧
      st'.data_sheet.validations = st.data_sheet.validations ++
        column_validation p.1 field.core ∧
      st'.data_sheet.rowSettings = st.data_sheet.rowSettings ∧
      st'.data_sheet.merges = st.data_sheet.merges ∧
      vsStep st.variable_sheet_obj st'.variable_sheet_obj ∧
      (vsInv st.variable_sheet_obj → vsInv st'.variable_sheet_obj) ∧
      (field.long_list = false → st'.variable_sheet_obj = st.variable_sheet_obj) ∧
      (field.validation = none → st'.variable_sheet_obj = st.variable_sheet_obj) ∧
      (∀ v, field.validation = some v → field.long_list = true →
        ∃ src, v.source = some src ∧
          (vsInv st.variable_sheet_obj →
            longRegistered st'.variable_sheet_obj field.name src)) := by
  unfold process_column at h
  cases hl : lookupField st.field_dict p.2 with
  | none => rw [hl] at h; simp [getKey] at h
  | some field =>
    rw [hl] at h
    simp only [getKey] at h
    refine ⟨field, rfl, ?_⟩
    have hcore : ∀ field2 : Field, field2.core = field.core →
        dictCore (updateField st.field_dict p.2 field2) = dictCore st.field_dict := by
      intro field2 hc
      apply dictCore_updateField
      intro g hg
      rw [hl] at hg
      cases Option.some.inj hg
      exact hc.symm
    cases hv : field.validation with
    | none =>
      rw [hv] at h
      cases hcf : field.cell_format with
      | some cf =>
        rw [hcf] at h
        simp only [Except.ok.injEq] at h
        subst h
        refine ⟨hcore _ (by simp_all [Field.core]), rfl, ?_, ?_, rfl, rfl, vsStep_refl _, id, fun _ => rfl,
          fun _ => rfl, ?_⟩
        · simp [Sheet.write, Sheet.set_column, List.append_assoc]
        · simp [Sheet.write, Sheet.set_column, column_validation, Field.core, hv]
        · intro v hv' _
          exact absurd hv' (by simp)
      | none =>
        rw [hcf] at h
        simp only [Except.ok.injEq] at h
        subst h
        refine ⟨rfl, rfl, ?_, ?_, rfl, rfl, vsStep_refl _, id, fun _ => rfl,
          fun _ => rfl, ?_⟩
        · simp [Sheet.write, Sheet.set_column, List.append_assoc]
        · simp [Sheet.write, Sheet.set_column, column_validation, Field.core, hv]
        · intro v hv' _
          exact absurd hv' (by simp)
    | some v =>
      rw [hv] at h
      cases hll : field.long_list with
      | true =>
        rw [hll] at h
        try simp only [↓reduceIte] at h
        cases hsrc : v.source with
        | none => rw [hsrc] at h; simp [getKey] at h
        | some src =>
          rw [hsrc] at h
          simp only [getKey] at h
          cases hmsg : v.input_message with
          | none => rw [hmsg] at h; simp [getKey] at h
          | some m =>
            rw [hmsg] at h
            simp only [getKey] at h
            have hstep := add_row_step st.variable_sheet_obj field.name src
            cases hcf : field.cell_format with
            | some cf =>
              rw [hcf] at h
              simp only [Except.ok.injEq] at h
              subst h
              refine ⟨hcore _ (by simp_all [Field.core]), rfl, ?_, ?_, rfl, rfl, hstep.1,
                fun hinv => (add_row_spec _ _ _ hinv).2.1, ?_, ?_, ?_⟩
              · simp [Sheet.write, Sheet.set_column, Sheet.data_validation,
                  List.append_assoc]
              · simp [Sheet.write, Sheet.set_column, Sheet.data_validation,
                  column_validation, Field.core, hv, hll, hmsg, hsrc,
                  Variable_sheet.add_row, List.append_assoc]
              · intro hfalse; exact absurd hfalse (by simp)
              · intro hnone; exact absurd hnone (by simp)
              · intro v' hv' _
                cases Option.some.inj hv'
                exact ⟨src, hsrc, fun hinv => (add_row_spec _ _ _ hinv).2.2.1⟩
            | none =>
              rw [hcf] at h
              simp only [Except.ok.injEq] at h
              subst h
              refine ⟨rfl, rfl, ?_, ?_, rfl, rfl, hstep.1,
                fun hinv => (add_row_spec _ _ _ hinv).2.1, ?_, ?_, ?_⟩
              · simp [Sheet.write, Sheet.set_column, Sheet.data_validation,
                  List.append_assoc]
              · simp [Sheet.write, Sheet.set_column, Sheet.data_validation,
                  column_validation, Field.core, hv, hll, hmsg, hsrc,
                  Variable_sheet.add_row, List.append_assoc]
              · intro hfalse; exact absurd hfalse (by simp)
              · intro hnone; exact absurd hnone (by simp)
              · intro v' hv' _
                cases Option.some.inj hv'
                exact ⟨src, hsrc, fun hinv => (add_row_spec _ _ _ hinv).2.2.1⟩
      | false =>
        rw [hll] at h
        try simp only [Bool.false_eq_true, ↓reduceIte] at h
        cases hso : short_list_options v with
        | error e => rw [hso] at h; simp at h
        | ok vc =>
          rw [hso] at h
          cases hcf : field.cell_format with
          | some cf =>
            rw [hcf] at h
            simp only [Except.ok.injEq] at h
            subst h
            refine ⟨hcore _ (by simp_all [Field.core]), rfl, ?_, ?_, rfl, rfl, vsStep_refl _, id,
              fun _ => rfl, ?_, ?_⟩
            · simp [Sheet.write, Sheet.set_column, Sheet.data_validation,
                List.append_assoc]
            · simp [Sheet.write, Sheet.set_column, Sheet.data_validation,
                column_validation, Field.core, hv, hll, hso, List.append_assoc]
            · intro hnone; exact absurd hnone (by simp)
            · intro v' _ hllt
              exact absurd hllt (by simp)
          | none =>
            rw [hcf] at h
            simp only [Except.ok.injEq] at h
            subst h
            refine ⟨rfl, rfl, ?_, ?_, rfl, rfl, vsStep_refl _, id,
              fun _ => rfl, ?_, ?_⟩
            · simp [Sheet.write, Sheet.set_column, Sheet.data_validation,
                List.append_assoc]
            · simp [Sheet.write, Sheet.set_column, Sheet.data_validation,
                column_validation, Field.core, hv, hll, hso, List.append_assoc]
            · intro hnone; exact absurd hnone (by simp)
            · intro v' _ hllt
              exact absurd hllt (by simp)

theorem headerWrites_congr {d d' : List (String × Field)}
    (h : dictCore d = dictCore d') (l : List (Nat × String)) :
    headerWrites d l = headerWrites d' l := by
  unfold headerWrites
  congr 1
  funext p
  rw [coreLookup_congr h]

theorem columnValidations_congr {d d' : List (String × Field)}
    (h : dictCore d = dictCore d') (l : List (Nat × String)) :
    columnValidations d l = columnValidations d' l := by
  unfold columnValidations
  congr 1
  funext p
  rw [coreLookup_congr h]

/-- Full characterisation of a successful run of the column loop. -/
theorem process_columns_ok {l : List (Nat × String)} {st st' : LoopState}
    (h : process_columns st l = Except.ok st') :
    dictCore st'.field_dict = dictCore st.field_dict ∧
    st'.data_sheet.name = st.data_sheet.name ∧
    st'.data_sheet.writes = st.data_sheet.writes ++ headerWrites st.field_dict l ∧
    st'.data_sheet.validations = st.data_sheet.validations ++
      columnValidations st.field_dict l ∧
    st'.data_sheet.rowSettings = st.data_sheet.rowSettings ∧
    st'.data_sheet.merges = st.data_sheet.merges ∧
    vsStep st.variable_sheet_obj st'.variable_sheet_obj ∧
    (vsInv st.variable_sheet_obj → vsInv st'.variable_sheet_obj) ∧
    ((∀ p ∈ l, ∀ c, coreLookup st.field_dict p.2 = some c → c.long_list = false) →
      st'.variable_sheet_obj = st.variable_sheet_obj) ∧
    (∀ p ∈ l, ∀ c, coreLookup st.field_dict p.2 = some c →
      ∀ v, c.validation = some v → c.long_list = true →
        ∃ src, v.source = some src ∧
          (vsInv st.variable_sheet_obj →
            longRegistered st'.variable_sheet_obj c.name src)) := by
  induction l generalizing st with
  | nil =>
    unfold process_columns foldE at h
    simp only [Except.ok.injEq] at h
    subst h
    refine ⟨rfl, rfl, by simp [headerWrites], by simp [columnValidations], rfl, rfl,
      vsStep_refl _, id, fun _ => rfl, ?_⟩
    intro p hp
    exact absurd hp (List.not_mem_nil p)
  | cons q l ih =>
    unfold process_columns foldE at h
    cases hq : process_column st q with
    | error e => rw [hq] at h; cases h
    | ok st₁ =>
      rw [hq] at h
      have hfold : process_columns st₁ l = Except.ok st' := h
      obtain ⟨field, hl, hdc, hname, hwr, hval, hrow, hmrg, hstep, hinvp,
        hnotll, hvnone, hllreg⟩ := process_column_ok hq
      obtain ⟨ihdc, ihname, ihwr, ihval, ihrow, ihmrg, ihstep, ihinv,
        ihnotll, ihllreg⟩ := ih hfold
      have hclq : coreLookup st.field_dict q.2 = some field.core :=
        coreLookup_of_lookup hl
      refine ⟨ihdc.trans hdc, ihname.trans hname, ?_, ?_, ihrow.trans hrow,
        ihmrg.trans hmrg, vsStep_trans hstep ihstep, fun hi => ihinv (hinvp hi),
        ?_, ?_⟩
      · rw [ihwr, hwr, headerWrites_congr hdc]
        simp [headerWrites, List.flatMap_cons, hclq, Field.core, List.append_assoc]
      · rw [ihval, hval, columnValidations_congr hdc]
        simp [columnValidations, List.flatMap_cons, hclq, List.append_assoc]
      · intro hall
        have hqll : field.long_list = false := by
          have := hall q (List.mem_cons_self q l) field.core hclq
          simpa [Field.core] using this
        have h1 : st₁.variable_sheet_obj = st.variable_sheet_obj := hnotll hqll
        have h2 : st'.variable_sheet_obj = st₁.variable_sheet_obj := by
          apply ihnotll
          intro p hp c hc
          exact hall p (List.mem_cons_of_mem q hp) c
            ((coreLookup_congr hdc p.2).symm.trans hc)
        rw [h2, h1]
      · intro p hp c hc v hv hll
        rcases List.mem_cons.mp hp with rfl | hp
        · rw [hclq] at hc
          cases Option.some.inj hc
          obtain ⟨src, hsrc, hreg⟩ := hllreg v (by simpa [Field.core] using hv)
            (by simpa [Field.core] using hll)
          exact ⟨src, hsrc, fun hinv =>
            longRegistered_mono ihstep (hreg hinv)⟩
        · obtain ⟨src, hsrc, hreg⟩ := ihllreg p hp c
            ((coreLookup_congr hdc p.2).trans hc) v hv hll
          exact ⟨src, hsrc, fun hinv => hreg (hinvp hinv)⟩

/-- The display format the data loop picks for a supplied column, from its
name (date columns, time columns, all others). -/
def data_fmt (name : String) : Option CellFormat :=
  if ["eventDate", "start_date", "end_date"].contains name then some date_format
  else if ["eventTime", "start_time", "end_time"].contains name then some time_format
  else none

/-- The cell writes one data-loop iteration performs. -/
def data_col_writes (q : Nat × DataColumn) : List WriteE :=
  if q.2.ok then
    q.2.values.enum.map (fun e =>
      { row := start_row + e.1, col := q.1, val := e.2,
        fmt := data_fmt q.2.name })
  else []

/-- The cell writes the data-population loop performs: each accepted column
written downwards from `start_row` at its own position. -/
def dataWrites (data : Option (List DataColumn)) : List WriteE :=
  match data with
  | none => []
  | some d => d.enum.flatMap data_col_writes

theorem write_data_step_spec (s : Sheet) (q : Nat × DataColumn) :
    (write_data_step s q).name = s.name ∧
    (write_data_step s q).writes = s.writes ++ data_col_writes q ∧
    (write_data_step s q).validations = s.validations ∧
    (write_data_step s q).rowSettings = s.rowSettings := by
  unfold write_data_step data_col_writes
  cases hok : q.2.ok with
  | false => simp
  | true =>
    simp only [if_true]
    by_cases h1 : (["eventDate", "start_date", "end_date"].contains q.2.name) = true
    · have h1' : q.2.name = "eventDate" ∨ q.2.name = "start_date" ∨
          q.2.name = "end_date" := by simpa using h1
      simp [Sheet.write_column, data_fmt, h1, h1']
    · have h1' : ¬(q.2.name = "eventDate" ∨ q.2.name = "start_date" ∨
          q.2.name = "end_date") := by simpa using h1
      rw [Bool.not_eq_true] at h1
      by_cases h2 : (["eventTime", "start_time", "end_time"].contains q.2.name) = true
      · have h2' : q.2.name = "eventTime" ∨ q.2.name = "start_time" ∨
            q.2.name = "end_time" := by simpa using h2
        simp [Sheet.write_column, data_fmt, h1, h1', h2, h2']
      · have h2' : ¬(q.2.name = "eventTime" ∨ q.2.name = "start_time" ∨
            q.2.name = "end_time") := by simpa using h2
        rw [Bool.not_eq_true] at h2
        simp [Sheet.write_column, data_fmt, h1, h1', h2, h2']

theorem write_data_foldl (s : Sheet) (l : List (Nat × DataColumn)) :
    (l.foldl write_data_step s).name = s.name ∧
    (l.foldl write_data_step s).writes = s.writes ++ l.flatMap data_col_writes ∧
    (l.foldl write_data_step s).validations = s.validations ∧
    (l.foldl write_data_step s).rowSettings = s.rowSettings := by
  induction l generalizing s with
  | nil => simp
  | cons q l ih =>
    rw [List.foldl_cons, List.flatMap_cons]
    obtain ⟨sn, sw, sv, sr⟩ := write_data_step_spec s q
    obtain ⟨ihn, ihw, ihv, ihr⟩ := ih (write_data_step s q)
    refine ⟨ihn.trans sn, ?_, ihv.trans sv, ihr.trans sr⟩
    rw [ihw, sw, List.append_assoc]

theorem write_data_columns_spec (s : Sheet) (d : List DataColumn) :
    (write_data_columns s d).name = s.name ∧
    (write_data_columns s d).writes = s.writes ++ dataWrites (some d) ∧
    (write_data_columns s d).validations = s.validations ∧
    (write_data_columns s d).rowSettings = s.rowSettings :=
  write_data_foldl s d.enum

theorem finishData_spec (ds : Sheet) (fd : FileDef)
    (data : Option (List DataColumn)) :
    (finishData ds fd data).name = ds.name ∧
    (finishData ds fd data).writes = (ds.writes ++ dataWrites data) ++
      [{ row := 0, col := 0, val := fd.disp_name, fmt := some header_format }] ∧
    (finishData ds fd data).validations = ds.validations ∧
    (finishData ds fd data).rowSettings = ds.rowSettings ++
      [{ row := 0, height := some 24, cell_format := none, hidden := false },
       { row := parameter_row, height := none, cell_format := none, hidden := true }] := by
  unfold finishData
  cases data with
  | none =>
    simp [Sheet.write, Sheet.merge_range, Sheet.set_row, Sheet.freeze_panes,
      dataWrites, List.append_assoc]
  | some d =>
    obtain ⟨hn, hw, hv, hr⟩ := write_data_columns_spec ds d
    simp only [Sheet.write, Sheet.merge_range, Sheet.set_row, Sheet.freeze_panes]
    refine ⟨hn, ?_, hv, by rw [hr, List.append_assoc]; rfl⟩
    rw [hw]

/-- Decomposition of a successful `make_xlsx` run into its stages. -/
theorem make_xlsx_ok {file_def : FileDef} {field_dict : List (String × Field)}
    {metadata conversions : Bool} {data : Option (List DataColumn)}
    {metadata_df : Option (String → Option String)} {r : RunResult}
    (h : make_xlsx file_def field_dict metadata conversions data metadata_df =
      Except.ok r) :
    ∃ st', process_columns (initState field_dict) file_def.fields.enum =
        Except.ok st' ∧
      r.field_dict = st'.field_dict ∧
      ∃ metaSheets : List Sheet,
        ((metadata = false ∧ metaSheets = []) ∨
          ∃ ms, metadata = true ∧
            write_metadata field_dict metadata_df = Except.ok ms ∧
            metaSheets = [ms]) ∧
        r.sheets = metaSheets ++
          [finishData st'.data_sheet file_def data,
           st'.variable_sheet_obj.sheet] ++
          (if conversions then [write_conversion] else []) := by
  unfold make_xlsx at h
  cases hm : metadata with
  | false =>
    rw [hm] at h
    simp only [Bool.false_eq_true, if_false] at h
    cases hp : process_columns (initState field_dict) file_def.fields.enum with
    | error e => rw [hp] at h; cases h
    | ok st' =>
      rw [hp] at h
      simp only [Except.ok.injEq] at h
      subst h
      exact ⟨st', rfl, rfl, [], Or.inl ⟨rfl, rfl⟩, rfl⟩
  | true =>
    rw [hm] at h
    simp only [if_true] at h
    cases hw : write_metadata field_dict metadata_df with
    | error e => rw [hw] at h; cases h
    | ok ms =>
      rw [hw] at h
      cases hp : process_columns (initState field_dict) file_def.fields.enum with
      | error e => rw [hp] at h; cases h
      | ok st' =>
        rw [hp] at h
        simp only [Except.ok.injEq] at h
        subst h
        exact ⟨st', rfl, rfl, [ms], Or.inr ⟨ms, rfl, rfl, rfl⟩, rfl⟩

/-! Characterisation of the metadata sheet. -/

/-- The value the metadata loop writes into the value cell of a key. -/
def mrow_value (metadata_df : Option (String → Option String))
    (mk : String) : String :=
  match metadata_df with
  | some df => (match df mk with | some v => v | none => "")
  | none => ""

/-- The three writes of one metadata row: label, hidden key, value cell. -/
def mrow_writes (metadata_df : Option (String → Option String))
    (ii : Nat) (mk : String) (c : FieldCore) : List WriteE :=
  [{ row := ii, col := 0, val := c.disp_name, fmt := some parameter_format },
   { row := ii, col := 1, val := c.name, fmt := some parameter_format },
   { row := ii, col := 2, val := mrow_value metadata_df mk,
     fmt := some input_format }]

/-- The validations `metadata_tail` installs for one row (on success). -/
def mtail_validations (c : FieldCore) (ii : Nat) : List DataValidation :=
  match c.validation with
  | some v =>
    if !v.isEmpty then
      match metadata_valid_options v with
      | Except.ok vc =>
          [{ first_row := ii, first_col := 2, last_row := ii, last_col := 2,
             options := vc }]
      | Except.error _ => []
    else []
  | none => []

/-- The validations one metadata-row iteration installs: none when the
`except`-and-`continue` branch fires. -/
def mrow_validations (metadata_df : Option (String → Option String))
    (mk : String) (c : FieldCore) (ii : Nat) : List DataValidation :=
  match metadata_df with
  | some df =>
    (match df mk with
     | none => []
     | some _ => mtail_validations c ii)
  | none => mtail_validations c ii

theorem metadata_tail_ok {field : Field} {s s2 : Sheet} {ii : Nat}
    (h : metadata_tail field s ii = Except.ok s2) :
    s2.name = s.name ∧ s2.writes = s.writes ∧
      s2.validations = s.validations ++ mtail_validations field.core ii := by
  unfold metadata_tail at h
  cases hv : field.validation with
  | none =>
    rw [hv] at h
    simp only [Except.ok.injEq] at h
    subst h
    simp [Sheet.set_row, mtail_validations, Field.core, hv]
  | some v =>
    rw [hv] at h
    dsimp only [] at h
    cases hemp : v.isEmpty with
    | true =>
      rw [hemp] at h
      simp only [Bool.not_true, Bool.false_eq_true, if_false] at h
      simp only [Except.ok.injEq] at h
      subst h
      simp [Sheet.set_row, mtail_validations, Field.core, hv, hemp]
    | false =>
      rw [hemp] at h
      simp only [Bool.not_false, if_true] at h
      cases hmv : metadata_valid_options v with
      | error e => rw [hmv] at h; cases h
      | ok vc =>
        rw [hmv] at h
        cases hcf : field.cell_format with
        | none =>
          rw [hcf] at h
          simp only [Except.ok.injEq] at h
          subst h
          simp [Sheet.set_row, Sheet.data_validation, mtail_validations,
            Field.core, hv, hemp, hmv]
        | some cf =>
          rw [hcf] at h
          dsimp only [] at h
          cases hce : cf.isEmpty with
          | true =>
            rw [hce] at h
            simp only [Bool.not_true, Bool.false_eq_true, if_false] at h
            simp only [Except.ok.injEq] at h
            subst h
            simp [Sheet.set_row, Sheet.data_validation, mtail_validations,
              Field.core, hv, hemp, hmv]
          | false =>
            rw [hce] at h
            simp only [Bool.not_false, if_true] at h
            simp only [Except.ok.injEq] at h
            subst h
            simp [Sheet.set_row, Sheet.data_validation, mtail_validations,
              Field.core, hv, hemp, hmv]

theorem metadata_row_ok {d : List (String × Field)}
    {md : Option (String → Option String)} {s s2 : Sheet} {p : Nat × String}
    (h : metadata_row d md s p = Except.ok s2) :
    ∃ field, lookupField d p.2 = some field ∧
      s2.name = s.name ∧
      s2.writes = s.writes ++ mrow_writes md p.1 p.2 field.core ∧
      s2.validations = s.validations ++ mrow_validations md p.2 field.core p.1 := by
  unfold metadata_row at h
  dsimp only [] at h
  cases hl : lookupField d p.2 with
  | none => rw [hl] at h; simp [getKey] at h
  | some field =>
    rw [hl] at h
    simp only [getKey] at h
    refine ⟨field, rfl, ?_⟩
    cases hmd : md with
    | none =>
      rw [hmd] at h
      obtain ⟨tn, tw, tv⟩ := metadata_tail_ok h
      refine ⟨by simpa [Sheet.write, Sheet.set_column] using tn, ?_, ?_⟩
      · rw [tw]
        simp [Sheet.write, Sheet.set_column, mrow_writes, mrow_value,
          Field.core, List.append_assoc]
      · rw [tv]
        simp [Sheet.write, Sheet.set_column, mrow_validations]
    | some df =>
      rw [hmd] at h
      dsimp only [] at h
      cases hdf : df p.2 with
      | some v =>
        rw [hdf] at h
        obtain ⟨tn, tw, tv⟩ := metadata_tail_ok h
        refine ⟨by simpa [Sheet.write, Sheet.set_column] using tn, ?_, ?_⟩
        · rw [tw]
          simp [Sheet.write, Sheet.set_column, mrow_writes, mrow_value, hdf,
            Field.core, List.append_assoc]
        · rw [tv]
          simp [Sheet.write, Sheet.set_column, mrow_validations, hdf]
      | none =>
        rw [hdf] at h
        simp only [Except.ok.injEq] at h
        subst h
        refine ⟨rfl, ?_, ?_⟩
        · simp [Sheet.write, Sheet.set_column, mrow_writes, mrow_value, hdf,
            Field.core, List.append_assoc]
        · simp [Sheet.write, Sheet.set_column, mrow_validations, hdf]

/-- The writes of the whole metadata loop. -/
def metadataWritesAll (d : List (String × Field))
    (md : Option (String → Option String)) (l : List (Nat × String)) :
    List WriteE :=
  l.flatMap (fun p =>
    match coreLookup d p.2 with
    | some c => mrow_writes md p.1 p.2 c
    | none => [])

/-- The validations of the whole metadata loop. -/
def metadataValidationsAll (d : List (String × Field))
    (md : Option (String → Option String)) (l : List (Nat × String)) :
    List DataValidation :=
  l.flatMap (fun p =>
    match coreLookup d p.2 with
    | some c => mrow_validations md p.2 c p.1
    | none => [])

theorem foldE_metadata_ok {d : List (String × Field)}
    {md : Option (String → Option String)} {l : List (Nat × String)}
    {s s2 : Sheet} (h : foldE (metadata_row d md) s l = Except.ok s2) :
    s2.name = s.name ∧
      s2.writes = s.writes ++ metadataWritesAll d md l ∧
      s2.validations = s.validations ++ metadataValidationsAll d md l ∧
      ∀ p ∈ l, ∃ field, lookupField d p.2 = some field := by
  induction l generalizing s with
  | nil =>
    unfold foldE at h
    simp only [Except.ok.injEq] at h
    subst h
    refine ⟨rfl, by simp [metadataWritesAll], by simp [metadataValidationsAll], ?_⟩
    intro p hp
    exact absurd hp (List.not_mem_nil p)
  | cons q l ih =>
    unfold foldE at h
    cases hq : metadata_row d md s q with
    | error e => rw [hq] at h; cases h
    | ok s1 =>
      rw [hq] at h
      obtain ⟨field, hl, hn, hw, hv⟩ := metadata_row_ok hq
      obtain ⟨ihn, ihw, ihv, ihl⟩ := ih h
      have hclq : coreLookup d q.2 = some field.core := coreLookup_of_lookup hl
      refine ⟨ihn.trans hn, ?_, ?_, ?_⟩
      · rw [ihw, hw]
        simp [metadataWritesAll, List.flatMap_cons, hclq, List.append_assoc]
      · rw [ihv, hv]
        simp [metadataValidationsAll, List.flatMap_cons, hclq, List.append_assoc]
      · intro p hp
        rcases List.mem_cons.mp hp with rfl | hp
        · exact ⟨field, hl⟩
        · exact ihl p hp

/-- Characterisation of a successful `write_metadata` run. -/
theorem write_metadata_ok {d : List (String × Field)}
    {md : Option (String → Option String)} {s : Sheet}
    (h : write_metadata d md = Except.ok s) :
    s.name = "Metadata" ∧
      s.writes = metadataWritesAll d md metadata_fields.enum ∧
      s.validations = metadataValidationsAll d md metadata_fields.enum ∧
      ∀ p ∈ metadata_fields.enum, ∃ field, lookupField d p.2 = some field := by
  unfold write_metadata at h
  obtain ⟨hn, hw, hv, hl⟩ := foldE_metadata_ok h
  refine ⟨by simpa [Sheet.set_column] using hn, ?_, ?_, hl⟩
  · rw [hw]; simp [Sheet.set_column]
  · rw [hv]; simp [Sheet.set_column]

/-! Locating single cells inside the accumulated write lists. -/

theorem lastValAt_nomatch {ws : List WriteE} {r c : Nat}
    (h : ∀ w ∈ ws, ¬(w.row = r ∧ w.col = c)) : lastValAt ws r c = none := by
  unfold lastValAt
  have : ws.filter (fun w => w.row == r && w.col == c) = [] := by
    rw [List.filter_eq_nil_iff]
    intro w hw
    simp only [Bool.and_eq_true, beq_iff_eq]
    tauto
  rw [this]
  rfl

theorem lastValAt_append_left_nomatch {hd tl : List WriteE} {r c : Nat}
    (h : ∀ w ∈ hd, ¬(w.row = r ∧ w.col = c)) :
    lastValAt (hd ++ tl) r c = lastValAt tl r c := by
  unfold lastValAt
  have : hd.filter (fun w => w.row == r && w.col == c) = [] := by
    rw [List.filter_eq_nil_iff]
    intro w hw
    simp only [Bool.and_eq_true, beq_iff_eq]
    tauto
  rw [List.filter_append, this, List.nil_append]

theorem headerWrites_row {d : List (String × Field)} {l : List (Nat × String)} :
    ∀ w ∈ headerWrites d l, w.row = title_row ∨ w.row = parameter_row := by
  intro w hw
  unfold headerWrites at hw
  obtain ⟨p, _, hm⟩ := List.mem_flatMap.mp hw
  cases hcl : coreLookup d p.2 with
  | none => rw [hcl] at hm; cases hm
  | some c =>
    rw [hcl] at hm
    rcases List.mem_cons.mp hm with rfl | hm
    · exact Or.inl rfl
    · rcases List.mem_singleton.mp (by simpa using hm) with rfl
      exact Or.inr rfl

theorem headerWrites_cons (d : List (String × Field)) (p : Nat × String)
    (l : List (Nat × String)) :
    headerWrites d (p :: l) =
      (match coreLookup d p.2 with
       | some c =>
           [{ row := title_row, col := p.1, val := c.disp_name,
              fmt := some field_format },
            { row := parameter_row, col := p.1, val := c.name, fmt := none }]
       | none => []) ++ headerWrites d l := by
  unfold headerWrites
  rw [List.flatMap_cons]

theorem headerWrites_col_bounds {d : List (String × Field)}
    {fields : List String} {k : Nat} :
    ∀ w ∈ headerWrites d (List.enumFrom k fields),
      k ≤ w.col ∧ w.col < k + fields.length := by
  induction fields generalizing k with
  | nil => intro w hw; cases hw
  | cons f fields ih =>
    intro w hw
    rw [List.enumFrom_cons, headerWrites_cons] at hw
    rcases List.mem_append.mp hw with hw | hw
    · cases hcl : coreLookup d f with
      | none => rw [hcl] at hw; cases hw
      | some c =>
        rw [hcl] at hw
        have hcol : w.col = k := by
          rcases List.mem_cons.mp hw with rfl | hw
          · rfl
          · rcases List.mem_singleton.mp (by simpa using hw) with rfl
            rfl
        rw [hcol]
        simp only [List.length_cons]
        omega
    · have := ih w hw
      simp only [List.length_cons]
      omega

/-- The title-row and parameter-row cells of the enumerated columns. -/
theorem lastValAt_headerWrites {d : List (String × Field)}
    {fields : List String} {k j : Nat} {fname : String} {c : FieldCore}
    (hg : fields.get? j = some fname) (hc : coreLookup d fname = some c) :
    lastValAt (headerWrites d (List.enumFrom k fields)) title_row (k + j) =
      some c.disp_name ∧
    lastValAt (headerWrites d (List.enumFrom k fields)) parameter_row (k + j) =
      some c.name := by
  induction fields generalizing k j with
  | nil => cases hg
  | cons f fields ih =>
    rw [List.enumFrom_cons, headerWrites_cons]
    cases j with
    | zero =>
      rw [List.get?_cons_zero] at hg
      cases Option.some.inj hg
      rw [hc]
      have hnm : ∀ w ∈ headerWrites d (List.enumFrom (k + 1) fields),
          ∀ r : Nat, ¬(w.row = r ∧ w.col = k + 0) := by
        intro w hw r hcon
        have := (headerWrites_col_bounds w hw).1
        omega
      constructor
      · rw [lastValAt_append_nomatch _ _ _ _ (fun w hw => hnm w hw title_row)]
        unfold lastValAt
        simp [title_row, parameter_row]
      · rw [lastValAt_append_nomatch _ _ _ _ (fun w hw => hnm w hw parameter_row)]
        unfold lastValAt
        simp [title_row, parameter_row]
    | succ j =>
      rw [List.get?_cons_succ] at hg
      have hrec := ih (k := k + 1) (j := j) hg
      have hhd : ∀ w ∈ (match coreLookup d f with
          | some c0 =>
              ([{ row := title_row, col := k, val := c0.disp_name,
                  fmt := some field_format },
                { row := parameter_row, col := k, val := c0.name,
                  fmt := none }] : List WriteE)
          | none => ([] : List WriteE)),
          ∀ r : Nat, ¬(w.row = r ∧ w.col = k + (j + 1)) := by
        intro w hw r hcon
        cases hcl : coreLookup d f with
        | none => rw [hcl] at hw; cases hw
        | some c0 =>
          rw [hcl] at hw
          rcases List.mem_cons.mp hw with rfl | hw
          · have h2 : k = k + (j + 1) := hcon.2
            omega
          · rcases List.mem_singleton.mp (by simpa using hw) with rfl
            have h2 : k = k + (j + 1) := hcon.2
            omega
      have hidx : k + 1 + j = k + (j + 1) := by omega
      rw [hidx] at hrec
      constructor
      · rw [lastValAt_append_left_nomatch (fun w hw => hhd w hw title_row)]
        exact hrec.1
      · rw [lastValAt_append_left_nomatch (fun w hw => hhd w hw parameter_row)]
        exact hrec.2

/-- Beyond the enumerated columns, the header rows hold nothing. -/
theorem lastValAt_headerWrites_none {d : List (String × Field)}
    {fields : List String} {k i : Nat} (hi : k + fields.length ≤ i) (r : Nat) :
    lastValAt (headerWrites d (List.enumFrom k fields)) r i = none := by
  apply lastValAt_nomatch
  intro w hw hcon
  have := (headerWrites_col_bounds w hw).2
  omega

/-- Locating one value inside a single written column. -/
theorem lastValAt_enumFrom_map {vals : List String} {r0 c k j : Nat}
    {fmt : Option CellFormat} {v : String} (hg : vals.get? j = some v) :
    lastValAt ((List.enumFrom k vals).map
        (fun q => { row := r0 + q.1, col := c, val := q.2, fmt := fmt }))
      (r0 + (k + j)) c = some v := by
  induction vals generalizing k j with
  | nil => cases hg
  | cons a vals ih =>
    rw [List.enumFrom_cons, List.map_cons, ← List.singleton_append]
    cases j with
    | zero =>
      rw [List.get?_cons_zero] at hg
      cases Option.some.inj hg
      have hnm : ∀ w ∈ (List.enumFrom (k + 1) vals).map
          (fun q => ({ row := r0 + q.1, col := c, val := q.2,
                       fmt := fmt } : WriteE)),
          ¬(w.row = r0 + (k + 0) ∧ w.col = c) := by
        intro w hw hcon
        obtain ⟨q, hq, rfl⟩ := List.mem_map.mp hw
        have hqk : k + 1 ≤ q.1 := List.le_fst_of_mem_enumFrom hq
        have h2 : r0 + q.1 = r0 + (k + 0) := hcon.1
        omega
      rw [lastValAt_append_nomatch _ _ _ _ hnm]
      unfold lastValAt
      simp
    | succ j =>
      rw [List.get?_cons_succ] at hg
      have hrec := ih (k := k + 1) (j := j) hg
      have hhd : ∀ w ∈
          ([{ row := r0 + k, col := c, val := a, fmt := fmt }] : List WriteE),
          ¬(w.row = r0 + (k + (j + 1)) ∧ w.col = c) := by
        intro w hw hcon
        rcases List.mem_singleton.mp hw with rfl
        have h2 : r0 + k = r0 + (k + (j + 1)) := hcon.1
        omega
      rw [lastValAt_append_left_nomatch hhd]
      have hidx : r0 + (k + 1 + j) = r0 + (k + (j + 1)) := by omega
      rw [hidx] at hrec
      exact hrec

theorem data_col_writes_facts {q : Nat × DataColumn} :
    ∀ w ∈ data_col_writes q, w.col = q.1 ∧ start_row ≤ w.row := by
  intro w hw
  unfold data_col_writes at hw
  cases hok : q.2.ok with
  | false => rw [hok] at hw; cases hw
  | true =>
    rw [hok] at hw
    simp only [if_true] at hw
    obtain ⟨e, _, rfl⟩ := List.mem_map.mp hw
    exact ⟨rfl, Nat.le_add_right _ _⟩

theorem dataWrites_enumFrom_facts {d : List DataColumn} {k : Nat} :
    ∀ w ∈ (List.enumFrom k d).flatMap data_col_writes,
      k ≤ w.col ∧ start_row ≤ w.row := by
  intro w hw
  obtain ⟨q, hq, hm⟩ := List.mem_flatMap.mp hw
  obtain ⟨hcol, hrow⟩ := data_col_writes_facts w hm
  exact ⟨hcol ▸ List.le_fst_of_mem_enumFrom hq, hrow⟩

/-- Locating the data cells of one supplied column: an accepted column's
values sit below `start_row` at its own position; a rejected column leaves
every one of its cells unwritten. -/
theorem lastValAt_dataWrites {d : List DataColumn} {k j : Nat}
    {col : DataColumn} (hg : d.get? j = some col) :
    (∀ e v, col.values.get? e = some v → col.ok = true →
      lastValAt ((List.enumFrom k d).flatMap data_col_writes)
        (start_row + e) (k + j) = some v) ∧
    (col.ok = false → ∀ rr,
      lastValAt ((List.enumFrom k d).flatMap data_col_writes) rr (k + j) =
        none) := by
  induction d generalizing k j with
  | nil => cases hg
  | cons a d ih =>
    rw [List.enumFrom_cons, List.flatMap_cons]
    have htail : ∀ w ∈ (List.enumFrom (k + 1) d).flatMap data_col_writes,
        k + 1 ≤ w.col := fun w hw => (dataWrites_enumFrom_facts w hw).1
    cases j with
    | zero =>
      rw [List.get?_cons_zero] at hg
      cases Option.some.inj hg
      have hnm : ∀ rr : Nat, ∀ w ∈ (List.enumFrom (k + 1) d).flatMap
          data_col_writes, ¬(w.row = rr ∧ w.col = k + 0) := by
        intro rr w hw hcon
        have := htail w hw
        omega
      constructor
      · intro e v hv hok
        rw [lastValAt_append_nomatch _ _ _ _ (hnm (start_row + e))]
        unfold data_col_writes
        rw [hok]
        simp only [if_true]
        have := @lastValAt_enumFrom_map col.values start_row ((k, col).1) 0 e
          (data_fmt (k, col).2.name) v hv
        simpa [List.enum] using this
      · intro hok rr
        rw [lastValAt_append_nomatch _ _ _ _ (hnm rr)]
        unfold data_col_writes
        rw [hok]
        simp only [Bool.false_eq_true, if_false]
        exact lastValAt_nomatch (by intro w hw; cases hw)
    | succ j =>
      rw [List.get?_cons_succ] at hg
      have hrec := ih (k := k + 1) (j := j) hg
      have hhd : ∀ w ∈ data_col_writes (k, a),
          ∀ rr : Nat, ¬(w.row = rr ∧ w.col = k + (j + 1)) := by
        intro w hw rr hcon
        have := (data_col_writes_facts w hw).1
        have h2 := hcon.2
        simp only at this
        omega
      have hidx : k + 1 + j = k + (j + 1) := by omega
      constructor
      · intro e v hv hok
        rw [lastValAt_append_left_nomatch (fun w hw => hhd w hw (start_row + e))]
        have := (hrec.1) e v hv hok
        rwa [hidx] at this
      · intro hok rr
        rw [lastValAt_append_left_nomatch (fun w hw => hhd w hw rr)]
        have := (hrec.2) hok rr
        rwa [hidx] at this

/-! Locating the metadata value cells. -/

theorem metadataWritesAll_cons (d : List (String × Field))
    (md : Option (String → Option String)) (p : Nat × String)
    (l : List (Nat × String)) :
    metadataWritesAll d md (p :: l) =
      (match coreLookup d p.2 with
       | some c => mrow_writes md p.1 p.2 c
       | none => []) ++ metadataWritesAll d md l := by
  unfold metadataWritesAll
  rw [List.flatMap_cons]

theorem metadataWritesAll_row_ge {d : List (String × Field)}
    {md : Option (String → Option String)} {keys : List String} {k : Nat} :
    ∀ w ∈ metadataWritesAll d md (List.enumFrom k keys), k ≤ w.row := by
  intro w hw
  obtain ⟨p, hp, hm⟩ := List.mem_flatMap.mp hw
  have hk : k ≤ p.1 := List.le_fst_of_mem_enumFrom hp
  cases hcl : coreLookup d p.2 with
  | none => rw [hcl] at hm; cases hm
  | some c =>
    rw [hcl] at hm
    unfold mrow_writes at hm
    rcases List.mem_cons.mp hm with rfl | hm
    · exact hk
    · rcases List.mem_cons.mp hm with rfl | hm
      · exact hk
      · rcases List.mem_singleton.mp (by simpa using hm) with rfl
        exact hk

/-- The value cell of one metadata key holds exactly the value the loop
wrote for it. -/
theorem lastValAt_metadataWritesAll {d : List (String × Field)}
    {md : Option (String → Option String)} {keys : List String} {k j : Nat}
    {mk : String} {c : FieldCore}
    (hg : keys.get? j = some mk) (hc : coreLookup d mk = some c) :
    lastValAt (metadataWritesAll d md (List.enumFrom k keys)) (k + j) 2 =
      some (mrow_value md mk) := by
  induction keys generalizing k j with
  | nil => cases hg
  | cons key keys ih =>
    rw [List.enumFrom_cons, metadataWritesAll_cons]
    cases j with
    | zero =>
      rw [List.get?_cons_zero] at hg
      cases Option.some.inj hg
      rw [hc]
      have hnm : ∀ w ∈ metadataWritesAll d md (List.enumFrom (k + 1) keys),
          ¬(w.row = k + 0 ∧ w.col = 2) := by
        intro w hw hcon
        have := metadataWritesAll_row_ge w hw
        omega
      rw [lastValAt_append_nomatch _ _ _ _ hnm]
      unfold mrow_writes lastValAt
      simp
    | succ j =>
      rw [List.get?_cons_succ] at hg
      have hrec := ih (k := k + 1) (j := j) hg
      have hhd : ∀ w ∈ (match coreLookup d key with
          | some c0 => mrow_writes md k key c0
          | none => ([] : List WriteE)),
          ¬(w.row = k + (j + 1) ∧ w.col = 2) := by
        intro w hw hcon
        cases hcl : coreLookup d key with
        | none => rw [hcl] at hw; cases hw
        | some c0 =>
          rw [hcl] at hw
          unfold mrow_writes at hw
          have hrow : w.row = k := by
            rcases List.mem_cons.mp hw with rfl | hw
            · rfl
            · rcases List.mem_cons.mp hw with rfl | hw
              · rfl
              · rcases List.mem_singleton.mp (by simpa using hw) with rfl
                rfl
          have h2 := hcon.1
          omega
      rw [lastValAt_append_left_nomatch hhd]
      have hidx : k + 1 + j = k + (j + 1) := by omega
      rwa [hidx] at hrec

theorem coreLookup_inv {d : List (String × Field)} {k : String} {c : FieldCore}
    (h : coreLookup d k = some c) :
    ∃ f, lookupField d k = some f ∧ f.core = c := by
  unfold coreLookup at h
  cases hl : lookupField d k with
  | none => rw [hl] at h; cases h
  | some f =>
    rw [hl] at h
    exact ⟨f, rfl, Option.some.inj h⟩

theorem dataWrites_row_ge {data : Option (List DataColumn)} :
    ∀ w ∈ dataWrites data, start_row ≤ w.row := by
  intro w hw
  cases data with
  | none => cases hw
  | some d =>
    have : w ∈ (List.enumFrom 0 d).flatMap data_col_writes := hw
    exact (dataWrites_enumFrom_facts w this).2

theorem vsInv_init : vsInv Variable_sheet.init :=
  ⟨fun w hw => absurd hw (List.not_mem_nil w),
   fun t ht => absurd ht (List.not_mem_nil t)⟩

theorem metadata_valid_options_eq {v : Validation} {m : String}
    (hm : v.input_message = some m) :
    metadata_valid_options v = Except.ok
      (if m.length > 255 then
        { v with input_message := some (pyTake m 252 ++ "...") }
      else v) := by
  unfold metadata_valid_options getKey
  rw [hm]

/-- The short-list options transformation, computed. -/
theorem short_list_options_eq {v : Validation} {m t : String}
    (hm : v.input_message = some m) (ht : v.input_title = some t) :
    short_list_options v = Except.ok
      { v with
        input_message :=
          some (if 255 < m.length then pyTake m 252 ++ "..." else m),
        input_title := some (if 32 < t.length then pyTake t 32 else t) } := by
  unfold short_list_options getKey
  obtain ⟨va, so, vl, im, it⟩ := v
  cases hm
  cases ht
  by_cases hlen : m.length > 255 <;> by_cases htl : t.length > 32 <;>
    simp [hlen, htl]

/-! The claims. -/

theorem dictInsert_mem {d : List (String × Field)} {k : String} {f : Field}
    {q : String × Field} (h : q ∈ dictInsert d k f) : q ∈ d ∨ q = (k, f) := by
  induction d with
  | nil => simpa [dictInsert] using h
  | cons p rest ih =>
    unfold dictInsert at h
    by_cases hk : (p.1 == k) = true
    · rw [if_pos hk] at h
      rcases List.mem_cons.mp h with rfl | h
      · exact Or.inr rfl
      · exact Or.inl (List.mem_cons_of_mem p h)
    · rw [if_neg hk] at h
      rcases List.mem_cons.mp h with rfl | h
      · exact Or.inl (List.mem_cons_self _ _)
      · rcases ih h with h | h
        · exact Or.inl (List.mem_cons_of_mem p h)
        · exact Or.inr h

theorem make_dict_mem_aux (fields : List RawField)
    (acc : List (String × Field)) :
    ∀ q ∈ fields.foldl
        (fun d field => dictInsert d field.name (build_field field)) acc,
      q ∈ acc ∨ ∃ rf ∈ fields, q = (rf.name, build_field rf) := by
  induction fields generalizing acc with
  | nil => intro q hq; exact Or.inl hq
  | cons f fields ih =>
    intro q hq
    rw [List.foldl_cons] at hq
    rcases ih _ q hq with hacc | ⟨rf, hrf, hq⟩
    · rcases dictInsert_mem hacc with hin | hq
      · exact Or.inl hin
      · exact Or.inr ⟨f, List.mem_cons_self _ _, hq⟩
    · exact Or.inr ⟨rf, List.mem_cons_of_mem f hrf, hq⟩

/-- C7: for every raw field descriptor in the catalog list, the `Field` the
catalog builder produces for it has width equal to the length of its display
name when the descriptor lacks a `width` key, and equal to that key's value
when present; and every entry of the built dict is `build_field` of one of
the supplied descriptors. -/
theorem C7_width_default (fields : List RawField) (r : RawField)
    (hmem : r ∈ fields) :
    ((r.width = none → (build_field r).width = r.disp_name.length) ∧
      (∀ w, r.width = some w → (build_field r).width = w)) ∧
    (∀ q ∈ make_dict_of_fields fields,
      ∃ rf ∈ fields, q = (rf.name, build_field rf)) := by
  constructor
  · obtain ⟨n, dn, va, cf, wd, ll⟩ := r
    constructor
    · intro hw
      cases hw
      cases va <;> cases cf <;> cases ll <;>
        simp [build_field, Field.set_validation, Field.set_cell_format,
          Field.set_width, Field.set_long_list]
    · intro w hw
      cases hw
      cases va <;> cases cf <;> cases ll <;>
        simp [build_field, Field.set_validation, Field.set_cell_format,
          Field.set_width, Field.set_long_list]
  · intro q hq
    rcases make_dict_mem_aux fields [] q hq with h | h
    · exact absurd h (List.not_mem_nil q)
    · exact h

def rC7 : RawField := { name := "eventDate", disp_name := "Event Date" }

def rC7b : RawField :=
  { name := "depth", disp_name := "Depth", width := some 7 }

/-- C7 witness at a concrete catalog. -/
theorem C7_width_default_witness :
    rC7 ∈ [rC7, rC7b] ∧
    (((rC7.width = none → (build_field rC7).width = rC7.disp_name.length) ∧
       (∀ w, rC7.width = some w → (build_field rC7).width = w)) ∧
     (∀ q ∈ make_dict_of_fields [rC7, rC7b],
       ∃ rf ∈ [rC7, rC7b], q = (rf.name, build_field rf))) :=
  ⟨List.mem_cons_self _ _,
   C7_width_default [rC7, rC7b] rC7 (List.mem_cons_self _ _)⟩

def fdC1 : FileDef := { name := "f", disp_name := "", fields := ["a"] }

def field_dictC1 : List (String × Field) :=
  [("a", { name := "a", disp_name := "A" })]

/-- C1: the claim says a field carrying the type-default empty validation
dict gets its width and format applied, no validation, and the render
completes without error.  The code tests `field.validation is not None`, so
the empty dict enters the validation branch and the subscript
`valid_copy[input_message]` raises `KeyError` — the run aborts. -/
theorem C1_empty_validation_keyError :
    make_xlsx fdC1 field_dictC1 false false none none =
      Except.error (Err.keyError "input_message") := rfl

def fdC2 : FileDef := { name := "f", disp_name := "", fields := [] }

/-- C2 counterexample: a render with no long_list field registered (the
field list is empty) still produces a workbook whose sheets are `Data` and
a hidden `Variables` sheet — contradicting "no Variables sheet is added". -/
theorem C2_variables_counterexample :
    fdC2.fields = [] ∧
    (make_xlsx fdC2 [] false false none none).toOption.map
        (fun r => r.sheets.map (fun s => (s.name, s.hidden))) =
      some [("Data", false), ("Variables", true)] :=
  ⟨rfl, rfl⟩

/-- C2 amended: the output workbook always contains a hidden `Variables`
sheet, whether or not any long_list field exists; when no included field has
long_list set, the sheet is present but empty (no tables, no writes). -/
theorem C2_variables_sheet (file_def : FileDef)
    (field_dict : List (String × Field)) (metadata conversions : Bool)
    (data : Option (List DataColumn))
    (metadata_df : Option (String → Option String)) (r : RunResult)
    (h : make_xlsx file_def field_dict metadata conversions data metadata_df =
      Except.ok r) :
    ∃ s ∈ r.sheets, s.name = "Variables" ∧ s.hidden = true ∧
      ((∀ fname ∈ file_def.fields, ∀ f,
          lookupField field_dict fname = some f → f.long_list = false) →
        s.tables = [] ∧ s.writes = []) := by
  obtain ⟨st', hp, hfd, metaSheets, hms, hsheets⟩ := make_xlsx_ok h
  obtain ⟨_, _, _, _, _, _, hstep, _, hnoll, _⟩ := process_columns_ok hp
  refine ⟨st'.variable_sheet_obj.sheet, ?_, ?_, ?_, ?_⟩
  · rw [hsheets]
    exact List.mem_append_left _ (List.mem_append_right _ (by simp))
  · obtain ⟨hn, _, _, _, _⟩ := hstep
    exact hn
  · obtain ⟨_, hh, _, _, _⟩ := hstep
    exact hh
  · intro hall
    have hvs : st'.variable_sheet_obj = Variable_sheet.init := by
      apply hnoll
      intro p hp2 c hc
      obtain ⟨f, hf, hfc⟩ := coreLookup_inv hc
      have hmem : p.2 ∈ file_def.fields := by
        have := List.mem_enum_iff_getElem?.mp hp2
        rw [← List.get?_eq_getElem?] at this
        exact List.get?_mem this
      have := hall p.2 hmem f hf
      rw [← hfc]
      simpa [Field.core] using this
    rw [hvs]
    exact ⟨rfl, rfl⟩

def rC2w : RunResult :=
  ((make_xlsx fdC2 [] false false none none).toOption).getD
    { sheets := [], field_dict := [] }

/-- C2 amended, witnessed on a concrete run. -/
theorem C2_variables_sheet_witness :
    ∃ s ∈ rC2w.sheets, s.name = "Variables" ∧ s.hidden = true ∧
      ((∀ fname ∈ fdC2.fields, ∀ f,
          lookupField [] fname = some f → f.long_list = false) →
        s.tables = [] ∧ s.writes = []) :=
  C2_variables_sheet fdC2 [] false false none none rC2w rfl

def vC6 : Validation :=
  { validate := some "any", input_message := some "m", input_title := some "t" }

def fC6 : Field :=
  { name := "a", disp_name := "A", validation := some vC6,
    cell_format := some CellFormat.empty, width := 5 }

def fdC6 : FileDef := { name := "f", disp_name := "", fields := ["a"] }

/-- The field `fC6` as the render leaves it: cell_format gained the default
font name and size. -/
def fC6mut : Field :=
  { fC6 with
    cell_format :=
      some { font_name := some DEFAULT_FONT, font_size := some DEFAULT_SIZE,
             props := [] } }

/-- C6 counterexample: rendering mutates the catalog entry in place — the
field's cell-format dict gains the default font name and size, so the
`Field` after the run differs from the one the catalog built. -/
theorem C6_mutation_counterexample :
    (make_xlsx fdC6 [("a", fC6)] false false none none).toOption.map
        (fun r => r.field_dict) = some [("a", fC6mut)] ∧ fC6mut ≠ fC6 :=
  ⟨rfl, by decide⟩

/-- C6 amended: rendering may mutate only the cell_format dict of a field
(inserting default font name and size); the name, display name, validation,
width and long_list of every catalog entry survive the run unchanged. -/
theorem C6_core_preserved (file_def : FileDef)
    (field_dict : List (String × Field)) (metadata conversions : Bool)
    (data : Option (List DataColumn))
    (metadata_df : Option (String → Option String)) (r : RunResult)
    (h : make_xlsx file_def field_dict metadata conversions data metadata_df =
      Except.ok r) :
    dictCore r.field_dict = dictCore field_dict := by
  obtain ⟨st', hp, hfd, _, _, _⟩ := make_xlsx_ok h
  obtain ⟨hdc, _⟩ := process_columns_ok hp
  rw [hfd]
  exact hdc

def rC6w : RunResult :=
  ((make_xlsx fdC6 [("a", fC6)] false false none none).toOption).getD
    { sheets := [], field_dict := [] }

/-- C6 amended, witnessed on a concrete run. -/
theorem C6_core_preserved_witness :
    dictCore rC6w.field_dict = dictCore [("a", fC6)] :=
  C6_core_preserved fdC6 [("a", fC6)] false false none none rC6w rfl

/-- The `Data` sheet of a successful run: its writes, validations and the
hidden parameter row. -/
theorem run_data_sheet {file_def : FileDef}
    {field_dict : List (String × Field)} {metadata conversions : Bool}
    {data : Option (List DataColumn)}
    {metadata_df : Option (String → Option String)} {r : RunResult}
    (h : make_xlsx file_def field_dict metadata conversions data metadata_df =
      Except.ok r) :
    ∃ ds ∈ r.sheets, ds.name = "Data" ∧
      ds.writes = (headerWrites field_dict file_def.fields.enum ++
          dataWrites data) ++
        [{ row := 0, col := 0, val := file_def.disp_name,
           fmt := some header_format }] ∧
      ds.validations = columnValidations field_dict file_def.fields.enum ∧
      ({ row := parameter_row, height := none, cell_format := none,
         hidden := true } : RowSetting) ∈ ds.rowSettings := by
  obtain ⟨st', hp, _, metaSheets, _, hsheets⟩ := make_xlsx_ok h
  obtain ⟨_, hname, hwr, hval, hrow, _⟩ := process_columns_ok hp
  obtain ⟨fn, fw, fv, fr⟩ := finishData_spec st'.data_sheet file_def data
  refine ⟨finishData st'.data_sheet file_def data, ?_, ?_, ?_, ?_, ?_⟩
  · rw [hsheets]
    exact List.mem_append_left _ (List.mem_append_right _ (by simp))
  · rw [fn, hname]
    rfl
  · rw [fw, hwr]
    simp [initState]
  · rw [fv, hval]
    simp [initState]
  · rw [fr]
    exact List.mem_append_right _ (by simp)

/-- C4: Data-sheet column i holds the display name of the i-th supplied
field on the title row and its internal key on the (subsequently hidden)
parameter row; the columns follow the supplied order exactly, and no column
beyond the supplied list carries a header. -/
theorem C4_column_layout (file_def : FileDef)
    (field_dict : List (String × Field)) (metadata conversions : Bool)
    (data : Option (List DataColumn))
    (metadata_df : Option (String → Option String)) (r : RunResult)
    (h : make_xlsx file_def field_dict metadata conversions data metadata_df =
      Except.ok r) :
    ∃ dsheet ∈ r.sheets, dsheet.name = "Data" ∧
      (∀ i fname field, file_def.fields.get? i = some fname →
        lookupField field_dict fname = some field →
          dsheet.getCell title_row i = some field.disp_name ∧
          dsheet.getCell parameter_row i = some field.name) ∧
      (∀ i, file_def.fields.length ≤ i →
        dsheet.getCell title_row i = none ∧
        dsheet.getCell parameter_row i = none) ∧
      ({ row := parameter_row, height := none, cell_format := none,
         hidden := true } : RowSetting) ∈ dsheet.rowSettings := by
  obtain ⟨ds, hds, hname, hw, hval, hrow⟩ := run_data_sheet h
  have hsplit : ∀ rr : Nat, rr = title_row ∨ rr = parameter_row → ∀ cc,
      ds.getCell rr cc =
        lastValAt (headerWrites field_dict file_def.fields.enum) rr cc := by
    intro rr hrr cc
    unfold Sheet.getCell
    rw [hw]
    rw [lastValAt_append_nomatch]
    · rw [lastValAt_append_nomatch]
      intro w hwm hcon
      have := dataWrites_row_ge w hwm
      rcases hrr with rfl | rfl <;>
        simp only [title_row, parameter_row, start_row] at this hcon <;> omega
    · intro w hwm hcon
      rcases List.mem_singleton.mp hwm with rfl
      have h0 : (0 : Nat) = rr := hcon.1
      rcases hrr with rfl | rfl <;>
        simp only [title_row, parameter_row] at h0 <;> omega
  refine ⟨ds, hds, hname, ?_, ?_, hrow⟩
  · intro i fname field hf hl
    have hcl : coreLookup field_dict fname = some field.core :=
      coreLookup_of_lookup hl
    have hpair := lastValAt_headerWrites (k := 0) (j := i) hf hcl
    rw [Nat.zero_add] at hpair
    constructor
    · rw [hsplit title_row (Or.inl rfl) i]
      exact hpair.1
    · rw [hsplit parameter_row (Or.inr rfl) i]
      exact hpair.2
  · intro i hi
    have hnone1 := @lastValAt_headerWrites_none field_dict
      file_def.fields 0 i (by omega) title_row
    have hnone2 := @lastValAt_headerWrites_none field_dict
      file_def.fields 0 i (by omega) parameter_row
    constructor
    · rw [hsplit title_row (Or.inl rfl) i]
      exact hnone1
    · rw [hsplit parameter_row (Or.inr rfl) i]
      exact hnone2

/-- C4 witnessed on a concrete run. -/
theorem C4_column_layout_witness :
    ∃ dsheet ∈ rC6w.sheets, dsheet.name = "Data" ∧
      (∀ i fname field, fdC6.fields.get? i = some fname →
        lookupField [("a", fC6)] fname = some field →
          dsheet.getCell title_row i = some field.disp_name ∧
          dsheet.getCell parameter_row i = some field.name) ∧
      (∀ i, fdC6.fields.length ≤ i →
        dsheet.getCell title_row i = none ∧
        dsheet.getCell parameter_row i = none) ∧
      ({ row := parameter_row, height := none, cell_format := none,
         hidden := true } : RowSetting) ∈ dsheet.rowSettings :=
  C4_column_layout fdC6 [("a", fC6)] false false none none rC6w rfl

/-- The data validation the long-list branch installs at column `i`. -/
def long_dv (i : Nat) (field : Field) (v : Validation) : DataValidation :=
  { first_row := start_row, first_col := i, last_row := end_row, last_col := i,
    options := { v with source := none, value := some ("=INDIRECT(\"" ++ table_name field.name ++ "\")") } }

/-- C3: a long_list field's source list is relocated to a named table on
the Variables sheet — the values written there are the source sorted
case-insensitively ascending (a sorted permutation), the table is named
`Table_` + the sanitised, capitalised internal key, and the data-column
validation has its source removed and its value set to the INDIRECT
formula over that name. -/
theorem C3_long_list_registration (file_def : FileDef)
    (field_dict : List (String × Field)) (metadata conversions : Bool)
    (data : Option (List DataColumn))
    (metadata_df : Option (String → Option String)) (r : RunResult)
    (h : make_xlsx file_def field_dict metadata conversions data metadata_df =
      Except.ok r)
    (i : Nat) (fname : String) (field : Field) (v : Validation)
    (src : List String)
    (hf : file_def.fields.get? i = some fname)
    (hl : lookupField field_dict fname = some field)
    (hll : field.long_list = true)
    (hv : field.validation = some v)
    (hsrc : v.source = some src) :
    (pySorted src).Perm src ∧ List.Sorted ciRel (pySorted src) ∧
    (∃ vsheet ∈ r.sheets, vsheet.name = "Variables" ∧ ∃ col,
      ({ first_row := 1, first_col := col, last_row := 1 + src.length,
         last_col := col, name := table_name field.name,
         header_row := false } : Table) ∈ vsheet.tables ∧
      vsheet.writesAtCol col =
        { row := 0, col := col, val := field.name, fmt := none } ::
          (pySorted src).enum.map (fun q =>
            { row := 1 + q.1, col := col, val := q.2, fmt := none })) ∧
    (∃ dsheet ∈ r.sheets, dsheet.name = "Data" ∧
      ∃ dv ∈ dsheet.validations, dv.first_row = start_row ∧
        dv.first_col = i ∧ dv.last_row = end_row ∧ dv.last_col = i ∧
        dv.options = { v with source := none, value := some ("=INDIRECT(\"" ++ table_name field.name ++ "\")") }) := by
  obtain ⟨st', hp, _, metaSheets, _, hsheets⟩ := make_xlsx_ok h
  obtain ⟨_, _, _, _, _, _, hstep, _, _, hllreg⟩ := process_columns_ok hp
  have hmem : (i, fname) ∈ file_def.fields.enum := by
    apply List.mem_enum_iff_getElem?.mpr
    rw [← List.get?_eq_getElem?]
    exact hf
  have hcl : coreLookup field_dict fname = some field.core :=
    coreLookup_of_lookup hl
  refine ⟨pySorted_perm src, pySorted_sorted src, ?_, ?_⟩
  · obtain ⟨src2, hsrc2, hreg⟩ := hllreg (i, fname) hmem field.core hcl v
      (by simp [Field.core, hv]) (by simp [Field.core, hll])
    rw [hsrc] at hsrc2
    cases Option.some.inj hsrc2
    obtain ⟨col, _, htab, hwac⟩ := hreg vsInv_init
    refine ⟨st'.variable_sheet_obj.sheet, ?_, ?_, col, htab, hwac⟩
    · rw [hsheets]
      exact List.mem_append_left _ (List.mem_append_right _ (by simp))
    · exact hstep.1
  · obtain ⟨ds, hds, hname, _, hval, _⟩ := run_data_sheet h
    refine ⟨ds, hds, hname, ?_⟩
    rw [hval]
    refine ⟨long_dv i field v, List.mem_flatMap.mpr ⟨(i, fname), hmem, ?_⟩,
      rfl, rfl, rfl, rfl, rfl⟩
    rw [hcl]
    simp [column_validation, long_dv, Field.core, hv, hll]

def srcLL : List String := ["b", "A", "c"]

def vLL : Validation :=
  { validate := some "list", source := some srcLL,
    input_message := some "m", input_title := some "t" }

def fLL : Field :=
  { name := "event Date", disp_name := "ED", validation := some vLL,
    cell_format := none, long_list := true }

def fdLL : FileDef := { name := "f", disp_name := "D", fields := ["event Date"] }

def dictLL : List (String × Field) := [("event Date", fLL)]

def rLLw : RunResult :=
  ((make_xlsx fdLL dictLL false false none none).toOption).getD
    { sheets := [], field_dict := [] }

/-- C3 witnessed on a concrete long-list run. -/
theorem C3_long_list_registration_witness :
    (pySorted srcLL).Perm srcLL ∧ List.Sorted ciRel (pySorted srcLL) ∧
    (∃ vsheet ∈ rLLw.sheets, vsheet.name = "Variables" ∧ ∃ col,
      ({ first_row := 1, first_col := col, last_row := 1 + srcLL.length,
         last_col := col, name := table_name fLL.name,
         header_row := false } : Table) ∈ vsheet.tables ∧
      vsheet.writesAtCol col =
        { row := 0, col := col, val := fLL.name, fmt := none } ::
          (pySorted srcLL).enum.map (fun q =>
            { row := 1 + q.1, col := col, val := q.2, fmt := none })) ∧
    (∃ dsheet ∈ rLLw.sheets, dsheet.name = "Data" ∧
      ∃ dv ∈ dsheet.validations, dv.first_row = start_row ∧
        dv.first_col = 0 ∧ dv.last_row = end_row ∧ dv.last_col = 0 ∧
        dv.options = { vLL with source := none, value := some ("=INDIRECT(\"" ++ table_name fLL.name ++ "\")") }) :=
  C3_long_list_registration fdLL dictLL false false none none rLLw rfl
    0 "event Date" fLL vLL srcLL rfl rfl rfl rfl rfl

/-- C10: the validation installed for a long_list field carries the field's
input_message and input_title unmodified — no 255-character prompt or
32-character title truncation happens on that branch. -/
theorem C10_long_list_untruncated (file_def : FileDef)
    (field_dict : List (String × Field)) (metadata conversions : Bool)
    (data : Option (List DataColumn))
    (metadata_df : Option (String → Option String)) (r : RunResult)
    (h : make_xlsx file_def field_dict metadata conversions data metadata_df =
      Except.ok r)
    (i : Nat) (fname : String) (field : Field) (v : Validation)
    (hf : file_def.fields.get? i = some fname)
    (hl : lookupField field_dict fname = some field)
    (hll : field.long_list = true)
    (hv : field.validation = some v) :
    ∃ dsheet ∈ r.sheets, dsheet.name = "Data" ∧
      ∃ dv ∈ dsheet.validations, dv.first_row = start_row ∧
        dv.first_col = i ∧
        dv.options.input_message = v.input_message ∧
        dv.options.input_title = v.input_title := by
  have hmem : (i, fname) ∈ file_def.fields.enum := by
    apply List.mem_enum_iff_getElem?.mpr
    rw [← List.get?_eq_getElem?]
    exact hf
  have hcl : coreLookup field_dict fname = some field.core :=
    coreLookup_of_lookup hl
  obtain ⟨ds, hds, hname, _, hval, _⟩ := run_data_sheet h
  refine ⟨ds, hds, hname, ?_⟩
  rw [hval]
  refine ⟨long_dv i field v, List.mem_flatMap.mpr ⟨(i, fname), hmem, ?_⟩,
    rfl, rfl, rfl, rfl⟩
  rw [hcl]
  simp [column_validation, long_dv, Field.core, hv, hll]

/-- C10 witnessed on a concrete long-list run. -/
theorem C10_long_list_untruncated_witness :
    ∃ dsheet ∈ rLLw.sheets, dsheet.name = "Data" ∧
      ∃ dv ∈ dsheet.validations, dv.first_row = start_row ∧
        dv.first_col = 0 ∧
        dv.options.input_message = vLL.input_message ∧
        dv.options.input_title = vLL.input_title :=
  C10_long_list_untruncated fdLL dictLL false false none none rLLw rfl
    0 "event Date" fLL vLL rfl rfl rfl rfl

/-- The data validation `write_metadata` installs at row `ii`. -/
def meta_dv (ii : Nat) (vc : Validation) : DataValidation :=
  { first_row := ii, first_col := 2, last_row := ii, last_col := 2,
    options := vc }

/-- The data validation the short-list branch installs at column `i`. -/
def short_dv (i : Nat) (vc : Validation) : DataValidation :=
  { first_row := start_row, first_col := i, last_row := end_row, last_col := i,
    options := vc }

/-- C5: a metadata value-cell validation whose prompt exceeds 255 characters
is installed with the prompt truncated to its first 252 characters plus
`...`; a short-list data-column validation gets the same prompt truncation
and, when its title exceeds 32 characters, the title truncated to its first
32 characters. -/
theorem C5_prompt_truncation (file_def : FileDef)
    (field_dict : List (String × Field)) (metadata conversions : Bool)
    (data : Option (List DataColumn))
    (metadata_df : Option (String → Option String)) (r : RunResult)
    (h : make_xlsx file_def field_dict metadata conversions data metadata_df =
      Except.ok r) :
    (metadata = true → ∀ ii mk mfield mv mm,
      metadata_fields.get? ii = some mk →
      lookupField field_dict mk = some mfield →
      mfield.validation = some mv → mv.isEmpty = false →
      mv.input_message = some mm → 255 < mm.length →
      (metadata_df = none ∨
        ∃ df mval, metadata_df = some df ∧ df mk = some mval) →
      ∃ msheet ∈ r.sheets, msheet.name = "Metadata" ∧
        ∃ dv ∈ msheet.validations, dv.first_row = ii ∧ dv.first_col = 2 ∧
          dv.options.input_message = some (pyTake mm 252 ++ "...")) ∧
    (∀ i fname field v m t,
      file_def.fields.get? i = some fname →
      lookupField field_dict fname = some field →
      field.long_list = false → field.validation = some v →
      v.input_message = some m → 255 < m.length → v.input_title = some t →
      ∃ dsheet ∈ r.sheets, dsheet.name = "Data" ∧
        ∃ dv ∈ dsheet.validations, dv.first_row = start_row ∧
          dv.first_col = i ∧
          dv.options.input_message = some (pyTake m 252 ++ "...") ∧
          (32 < t.length → dv.options.input_title = some (pyTake t 32))) := by
  obtain ⟨st', hp, _, metaSheets, hms, hsheets⟩ := make_xlsx_ok h
  constructor
  · intro hmt ii mk mfield mv mm hk hml hmv hemp hmm hmlen hnd
    rcases hms with ⟨hfalse, _⟩ | ⟨ms, _, hwm, hmse⟩
    · rw [hmt] at hfalse; cases hfalse
    · obtain ⟨hn, _, hvAll, _⟩ := write_metadata_ok hwm
      have hmem : (ii, mk) ∈ metadata_fields.enum := by
        apply List.mem_enum_iff_getElem?.mpr
        rw [← List.get?_eq_getElem?]
        exact hk
      have hcl : coreLookup field_dict mk = some mfield.core :=
        coreLookup_of_lookup hml
      have hmvo : metadata_valid_options mv = Except.ok
          { mv with input_message := some (pyTake mm 252 ++ "...") } := by
        rw [metadata_valid_options_eq hmm, if_pos (by omega)]
      have htail : mtail_validations mfield.core ii =
          [meta_dv ii { mv with input_message := some (pyTake mm 252 ++ "...") }] := by
        simp [mtail_validations, Field.core, hmv, hemp, hmvo, meta_dv]
      have hrowv : mrow_validations metadata_df mk mfield.core ii =
          [meta_dv ii { mv with input_message := some (pyTake mm 252 ++ "...") }] := by
        rcases hnd with rfl | ⟨df, mval, rfl, hdf⟩
        · rw [← htail]; rfl
        · unfold mrow_validations
          simp only [hdf, htail]
      refine ⟨ms, ?_, hn, meta_dv ii { mv with input_message := some (pyTake mm 252 ++ "...") }, ?_, rfl, rfl, rfl⟩
      · rw [hsheets, hmse]
        exact List.mem_append_left _ (List.mem_append_left _ (by simp))
      · rw [hvAll]
        exact List.mem_flatMap.mpr ⟨(ii, mk), hmem,
          by dsimp only []; rw [hcl]; simp [hrowv]⟩
  · intro i fname field v m t hf hl hll hv hm hlen ht
    have hmem : (i, fname) ∈ file_def.fields.enum := by
      apply List.mem_enum_iff_getElem?.mpr
      rw [← List.get?_eq_getElem?]
      exact hf
    have hcl : coreLookup field_dict fname = some field.core :=
      coreLookup_of_lookup hl
    have hso := short_list_options_eq hm ht
    rw [if_pos (by omega)] at hso
    obtain ⟨ds, hds, hname, _, hval, _⟩ := run_data_sheet h
    have hone : column_validation i field.core =
        [short_dv i { v with
          input_message := some (pyTake m 252 ++ "..."),
          input_title := some (if 32 < t.length then pyTake t 32 else t) }] := by
      simp [column_validation, Field.core, hv, hll, hso, short_dv]
    refine ⟨ds, hds, hname, short_dv i { v with input_message := some (pyTake m 252 ++ "..."), input_title := some (if 32 < t.length then pyTake t 32 else t) }, ?_, rfl, rfl, rfl, ?_⟩
    · rw [hval]
      exact List.mem_flatMap.mpr ⟨(i, fname), hmem,
        by dsimp only []; rw [hcl]; simp [hone]⟩
    · intro htl
      simp [short_dv, if_pos htl]

def longMsg : String := String.mk (List.replicate 256 'x')

def longTitle : String := String.mk (List.replicate 33 't')

def vMetaC5 : Validation :=
  { validate := some "length", input_message := some longMsg }

def fTitleC5 : Field :=
  { name := "title", disp_name := "Title", validation := some vMetaC5 }

def vXC5 : Validation :=
  { validate := some "any", input_message := some longMsg,
    input_title := some longTitle }

def fXC5 : Field :=
  { name := "x", disp_name := "X", validation := some vXC5 }

def dictC5 : List (String × Field) :=
  ("title", fTitleC5) :: ("x", fXC5) ::
    (metadata_fields.drop 1).map (fun k => (k, { name := k, disp_name := k }))

def fdC5 : FileDef := { name := "f", disp_name := "", fields := ["x"] }

def rC5w : RunResult :=
  ((make_xlsx fdC5 dictC5 true false none none).toOption).getD
    { sheets := [], field_dict := [] }

set_option maxRecDepth 4000 in
/-- C5 witnessed on a concrete run with a 256-character prompt on the
metadata field `title` and on the short-list data field `x`. -/
theorem C5_prompt_truncation_witness :
    (∃ msheet ∈ rC5w.sheets, msheet.name = "Metadata" ∧
      ∃ dv ∈ msheet.validations, dv.first_row = 0 ∧ dv.first_col = 2 ∧
        dv.options.input_message = some (pyTake longMsg 252 ++ "...")) ∧
    (∃ dsheet ∈ rC5w.sheets, dsheet.name = "Data" ∧
      ∃ dv ∈ dsheet.validations, dv.first_row = start_row ∧
        dv.first_col = 0 ∧
        dv.options.input_message = some (pyTake longMsg 252 ++ "...") ∧
        (32 < longTitle.length →
          dv.options.input_title = some (pyTake longTitle 32))) := by
  have hc5 := C5_prompt_truncation fdC5 dictC5 true false none none rC5w rfl
  refine ⟨hc5.1 rfl 0 "title" fTitleC5 vMetaC5 longMsg rfl rfl rfl (by decide)
      rfl (by decide) (Or.inl rfl), ?_⟩
  exact hc5.2 0 "x" fXC5 vXC5 longMsg longTitle rfl rfl rfl rfl rfl
    (by decide) rfl

/-- C8: a metadata key whose lookup in the supplied metadata frame fails
gets its value cell written as the empty string, and every metadata key
still gets its value cell written (the loop continues). -/
theorem C8_missing_key_blank (file_def : FileDef)
    (field_dict : List (String × Field)) (conversions : Bool)
    (data : Option (List DataColumn)) (df : String → Option String)
    (r : RunResult) (ii : Nat) (mk : String)
    (h : make_xlsx file_def field_dict true conversions data (some df) =
      Except.ok r)
    (hk : metadata_fields.get? ii = some mk)
    (hdf : df mk = none) :
    ∃ msheet ∈ r.sheets, msheet.name = "Metadata" ∧
      msheet.getCell ii 2 = some "" ∧
      ∀ jj mk2, metadata_fields.get? jj = some mk2 →
        (msheet.getCell jj 2).isSome = true := by
  obtain ⟨st', hp, _, metaSheets, hms, hsheets⟩ := make_xlsx_ok h
  rcases hms with ⟨hfalse, _⟩ | ⟨ms, _, hwm, hmse⟩
  · cases hfalse
  · obtain ⟨hn, hwAll, _, hlk⟩ := write_metadata_ok hwm
    have hmember : ∀ jj mk2, metadata_fields.get? jj = some mk2 →
        ∃ c, coreLookup field_dict mk2 = some c := by
      intro jj mk2 hg
      have hmem : (jj, mk2) ∈ metadata_fields.enum := by
        apply List.mem_enum_iff_getElem?.mpr
        rw [← List.get?_eq_getElem?]
        exact hg
      obtain ⟨f, hf⟩ := hlk (jj, mk2) hmem
      exact ⟨f.core, coreLookup_of_lookup hf⟩
    have hcell : ∀ jj mk2, metadata_fields.get? jj = some mk2 →
        ms.getCell jj 2 = some (mrow_value (some df) mk2) := by
      intro jj mk2 hg
      obtain ⟨c, hc⟩ := hmember jj mk2 hg
      have h0 := @lastValAt_metadataWritesAll field_dict (some df)
        metadata_fields 0 jj mk2 c hg hc
      rw [Nat.zero_add] at h0
      unfold Sheet.getCell
      rw [hwAll]
      exact h0
    refine ⟨ms, ?_, hn, ?_, ?_⟩
    · rw [hsheets, hmse]
      exact List.mem_append_left _ (List.mem_append_left _ (by simp))
    · rw [hcell ii mk hk]
      simp [mrow_value, hdf]
    · intro jj mk2 hg
      rw [hcell jj mk2 hg]
      rfl

def dfC8 : String → Option String :=
  fun k => if k == "title" then none else some "v"

def fdC8 : FileDef := { name := "f", disp_name := "", fields := [] }

def dictC8 : List (String × Field) :=
  metadata_fields.map (fun k => (k, { name := k, disp_name := k }))

def rC8w : RunResult :=
  ((make_xlsx fdC8 dictC8 true false none (some dfC8)).toOption).getD
    { sheets := [], field_dict := [] }

/-- C8 witnessed on a concrete run whose metadata frame lacks `title`. -/
theorem C8_missing_key_blank_witness :
    ∃ msheet ∈ rC8w.sheets, msheet.name = "Metadata" ∧
      msheet.getCell 0 2 = some "" ∧
      ∀ jj mk2, metadata_fields.get? jj = some mk2 →
        (msheet.getCell jj 2).isSome = true :=
  C8_missing_key_blank fdC8 dictC8 false none dfC8 rC8w 0 "title" rfl rfl rfl

/-- C9: a failing data column is swallowed — the run's success does not
depend on the supplied data at all, the failing column's cells stay
unwritten, and every accepted column's values land below `start_row` at its
own position. -/
theorem C9_data_write_failures (file_def : FileDef)
    (field_dict : List (String × Field)) (metadata conversions : Bool)
    (cols : List DataColumn)
    (metadata_df : Option (String → Option String)) :
    ((make_xlsx file_def field_dict metadata conversions (some cols)
        metadata_df).isOk =
      (make_xlsx file_def field_dict metadata conversions none
        metadata_df).isOk) ∧
    (∀ r, make_xlsx file_def field_dict metadata conversions (some cols)
        metadata_df = Except.ok r →
      ∃ dsheet ∈ r.sheets, dsheet.name = "Data" ∧
        ∀ j col, cols.get? j = some col →
          (col.ok = true → ∀ e v, col.values.get? e = some v →
            dsheet.getCell (start_row + e) j = some v) ∧
          (col.ok = false → ∀ rr, start_row ≤ rr →
            dsheet.getCell rr j = none)) := by
  constructor
  · unfold make_xlsx
    cases metadata with
    | false =>
      simp only [Bool.false_eq_true, if_false]
      cases process_columns (initState field_dict) file_def.fields.enum <;> rfl
    | true =>
      simp only [if_true]
      cases write_metadata field_dict metadata_df with
      | error e => rfl
      | ok ms =>
        cases process_columns (initState field_dict) file_def.fields.enum <;>
          rfl
  · intro r h
    obtain ⟨ds, hds, hname, hw, _, _⟩ := run_data_sheet h
    have hsplit : ∀ rr cc : Nat, start_row ≤ rr →
        ds.getCell rr cc = lastValAt (dataWrites (some cols)) rr cc := by
      intro rr cc hrr
      unfold Sheet.getCell
      rw [hw]
      rw [lastValAt_append_nomatch]
      · rw [lastValAt_append_left_nomatch]
        intro w hwm hcon
        rcases headerWrites_row w hwm with h1 | h1 <;>
          (rw [h1] at hcon
           simp only [title_row, parameter_row, start_row] at hcon hrr
           omega)
      · intro w hwm hcon
        rcases List.mem_singleton.mp hwm with rfl
        have h0 : (0 : Nat) = rr := hcon.1
        simp only [start_row, title_row] at hrr
        omega
    refine ⟨ds, hds, hname, ?_⟩
    intro j col hj
    have hlem := lastValAt_dataWrites (k := 0) (j := j) hj
    rw [Nat.zero_add] at hlem
    constructor
    · intro hok e v he
      rw [hsplit (start_row + e) j (Nat.le_add_right _ _)]
      exact hlem.1 e v he hok
    · intro hok rr hrr
      rw [hsplit rr j hrr]
      exact hlem.2 hok rr

def colOkC9 : DataColumn :=
  { name := "eventDate", values := ["d1", "d2"], ok := true }

def colBadC9 : DataColumn := { name := "y", values := ["v"], ok := false }

def rC9w : RunResult :=
  ((make_xlsx fdC2 [] false false (some [colOkC9, colBadC9]) none).toOption).getD
    { sheets := [], field_dict := [] }

/-- C9 witnessed on a concrete run with one accepted and one failing
column. -/
theorem C9_data_write_failures_witness :
    ((make_xlsx fdC2 [] false false (some [colOkC9, colBadC9]) none).isOk =
      (make_xlsx fdC2 [] false false none none).isOk) ∧
    (∃ dsheet ∈ rC9w.sheets, dsheet.name = "Data" ∧
      ∀ j col, [colOkC9, colBadC9].get? j = some col →
        (col.ok = true → ∀ e v, col.values.get? e = some v →
          dsheet.getCell (start_row + e) j = some v) ∧
        (col.ok = false → ∀ rr, start_row ≤ rr →
          dsheet.getCell rr j = none)) := by
  have h := C9_data_write_failures fdC2 [] false false [colOkC9, colBadC9] none
  exact ⟨h.1, h.2 rC9w rfl⟩

end AeN
